import Mathlib

/-!
# Verified embedding of the horn-designer geometry engine

This file embeds, over the real numbers, the geometry engine of the
horn-designer repository: the smoothstep blend primitives
(`src/lib/math/blending.ts`), the R-OSSE profile solver
(`src/lib/math/rosse.ts`), the dual modulation system
(`src/lib/math/modulation.ts`), the mesh assembler
(`src/lib/math/mesh.ts`), the shell generator (`src/lib/math/shell.ts`)
and the STL binary encoder's triangle/size bookkeeping
(`src/lib/export/stl.ts`).  JavaScript `number` arithmetic is modelled by
`ℝ`; the `**` operator on real operands by `Real.rpow`; nullable results
by `Option`; the growing JS arrays by Lean lists built with `List.range`.
Theorems about the data model and the stated testable properties follow
the definitions.
-/

open Real

noncomputable section

/-! ## Blend engine (`blending.ts`) -/

/-- `clamp(value, min, max)` from `blending.ts`. -/
def clamp (value lo hi : ℝ) : ℝ := max lo (min hi value)

/-- `smoothstep(t, start, end)` from `blending.ts`: cubic Hermite ease,
degenerating to a step function when `start >= end`. -/
def smoothstep (t start stop : ℝ) : ℝ :=
  if start ≥ stop then (if t ≥ stop then 1 else 0)
  else
    let s := clamp ((t - start) / (stop - start)) 0 1
    s * s * (3 - 2 * s)

/-- `poweredSmoothstep(t, start, end, power)` from `blending.ts`. -/
def poweredSmoothstep (t start stop power : ℝ) : ℝ :=
  (smoothstep t start stop) ^ power

/-- `lerp(a, b, t)` from `blending.ts`. -/
def lerp (a b t : ℝ) : ℝ := a + t * (b - a)

/-- `smoothLerp(a, b, t, start, end, power)` from `blending.ts`. -/
def smoothLerp (a b t start stop power : ℝ) : ℝ :=
  lerp a b (poweredSmoothstep t start stop power)

/-! ## R-OSSE profile solver (`rosse.ts`) -/

/-- `ROSSEParams` from `types/waveguide.ts`: the nine design parameters of
one R-OSSE guide curve. -/
structure ROSSEParams where
  R : ℝ
  r0 : ℝ
  a0_deg : ℝ
  a_deg : ℝ
  k : ℝ
  rho : ℝ
  b : ℝ
  m : ℝ
  q : ℝ

/-- `ROSSEPoint` from `types/waveguide.ts`: one `(t, x, y)` profile sample. -/
structure ROSSEPoint where
  t : ℝ
  x : ℝ
  y : ℝ

/-- `ROSSEResult` from `types/waveguide.ts`: sampled profile points plus
the solved axial length and the auxiliary coefficients. -/
structure ROSSEResult where
  points : List ROSSEPoint
  L : ℝ
  c1 : ℝ
  c2 : ℝ
  c3 : ℝ

/-- Default `ROSSEPoint` used to totalize JS array indexing. -/
def defaultPoint : ROSSEPoint := ⟨0, 0, 0⟩

/-- `a0 = a0_deg * π / 180` in `computeROSSE`. -/
def rosseA0 (p : ROSSEParams) : ℝ := p.a0_deg * Real.pi / 180

/-- `a = a_deg * π / 180` in `computeROSSE`. -/
def rosseA (p : ROSSEParams) : ℝ := p.a_deg * Real.pi / 180

/-- `c1 = (k * r0) ** 2` in `computeROSSE`. -/
def rosseC1 (p : ROSSEParams) : ℝ := (p.k * p.r0) ^ 2

/-- `c2 = 2 * k * r0 * tan(a0)` in `computeROSSE`. -/
def rosseC2 (p : ROSSEParams) : ℝ := 2 * p.k * p.r0 * Real.tan (rosseA0 p)

/-- `c3 = tan(a) ** 2` in `computeROSSE`. -/
def rosseC3 (p : ROSSEParams) : ℝ := Real.tan (rosseA p) ^ 2

/-- `disc = c2*c2 - 4*c3*(c1 - (R + r0*(k-1))**2)` in `computeROSSE`. -/
def rosseDisc (p : ROSSEParams) : ℝ :=
  rosseC2 p * rosseC2 p - 4 * rosseC3 p * (rosseC1 p - (p.R + p.r0 * (p.k - 1)) ^ 2)

/-- `L = (1/(2*c3)) * (sqrt(disc) - c2)` in `computeROSSE`. -/
def rosseL (p : ROSSEParams) : ℝ :=
  (1 / (2 * rosseC3 p)) * (Real.sqrt (rosseDisc p) - rosseC2 p)

/-- The axial sample `x(t)` generated inside the loop of `computeROSSE`. -/
def rosseX (p : ROSSEParams) (t : ℝ) : ℝ :=
  rosseL p * (Real.sqrt (p.rho * p.rho + p.m * p.m)
      - Real.sqrt (p.rho * p.rho + (t - p.m) ^ 2)) +
    p.b * rosseL p * (Real.sqrt (p.rho * p.rho + (1 - p.m) ^ 2)
      - Real.sqrt (p.rho * p.rho + p.m * p.m)) * t * t

/-- The radial sample `y(t)` generated inside the loop of `computeROSSE`. -/
def rosseY (p : ROSSEParams) (t : ℝ) : ℝ :=
  (1 - t ^ p.q) * (Real.sqrt (rosseC1 p + rosseC2 p * rosseL p * t
      + rosseC3 p * rosseL p * rosseL p * t * t) + p.r0 * (1 - p.k)) +
    t ^ p.q * (p.R + rosseL p * (1 - Real.sqrt (1 + rosseC3 p * (t - 1) ^ 2)))

/-- The `numPoints + 1` profile samples at `t = i / numPoints` generated by
the loop of `computeROSSE`. -/
def rossePoints (p : ROSSEParams) (numPoints : ℕ) : List ROSSEPoint :=
  (List.range (numPoints + 1)).map fun i : ℕ =>
    let t : ℝ := (i : ℝ) / (numPoints : ℝ)
    ⟨t, rosseX p t, rosseY p t⟩

/-- The `ROSSEResult` record built by `computeROSSE` in the non-degenerate
case. -/
def rosseSome (p : ROSSEParams) (numPoints : ℕ) : ROSSEResult :=
  ⟨rossePoints p numPoints, rosseL p, rosseC1 p, rosseC2 p, rosseC3 p⟩

open Classical in
/-- `computeROSSE(params, numPoints)` from `rosse.ts`: `null` (here `none`)
exactly when the discriminant is negative, otherwise the sampled profile. -/
def computeROSSE (p : ROSSEParams) (numPoints : ℕ) : Option ROSSEResult :=
  if rosseDisc p < 0 then none else some (rosseSome p numPoints)

/-- The nearest-sample index `min(round(t * (points.length - 1)), points.length - 1)`
used by `lookupX` and `lookupY` in `rosse.ts`. -/
def lookupIdx (pts : List ROSSEPoint) (t : ℝ) : ℕ :=
  min (round (t * ((pts.length : ℝ) - 1))).toNat (pts.length - 1)

/-- `lookupY(points, t)` from `rosse.ts`. -/
def lookupY (pts : List ROSSEPoint) (t : ℝ) : ℝ :=
  (pts.getD (lookupIdx pts t) defaultPoint).y

/-- `lookupX(points, t)` from `rosse.ts`. -/
def lookupX (pts : List ROSSEPoint) (t : ℝ) : ℝ :=
  (pts.getD (lookupIdx pts t) defaultPoint).x

/-! ## Dual modulation system (`modulation.ts`) -/

/-- `DiagonalModParams` / `CardinalModParams` from `types/waveguide.ts`:
both have the same shape `{enabled, base, amp, freq, exp}`. -/
structure ModulationParams where
  enabled : Bool
  base : ℝ
  amp : ℝ
  freq : ℝ
  exp : ℝ

/-- `ModulationBlendParams` from `types/waveguide.ts`. -/
structure ModulationBlendParams where
  modStart : ℝ
  modEnd : ℝ
  modPow : ℝ

/-- `modRawDiagonal(theta, params) = base + amp * |sin(freq*theta)| ** exp`. -/
def modRawDiagonal (theta : ℝ) (params : ModulationParams) : ℝ :=
  params.base + params.amp * |Real.sin (params.freq * theta)| ^ params.exp

/-- `modRawCardinal(theta, params) = base + amp * |cos(freq*theta)| ** exp`. -/
def modRawCardinal (theta : ℝ) (params : ModulationParams) : ℝ :=
  params.base + params.amp * |Real.cos (params.freq * theta)| ^ params.exp

/-- `ModulationPrep` from `modulation.ts`: the two parameter sets with their
precomputed `_avg` normalization averages. -/
structure ModulationPrep where
  diagonal : ModulationParams
  cardinal : ModulationParams
  avgDiagonal : ℝ
  avgCardinal : ℝ

/-- The `sumDiagonal` accumulated by the loop of `prepModParams`: each of
`numSamples` evenly spaced angles contributes `modRawDiagonal` when the
diagonal pattern is enabled. -/
def prepSumDiagonal (dm : ModulationParams) (numSamples : ℕ) : ℝ :=
  ∑ i in Finset.range numSamples,
    (if dm.enabled then modRawDiagonal (2 * Real.pi * (i : ℝ) / (numSamples : ℝ)) dm else 0)

/-- The `sumCardinal` accumulated by the loop of `prepModParams`. -/
def prepSumCardinal (cm : ModulationParams) (numSamples : ℕ) : ℝ :=
  ∑ i in Finset.range numSamples,
    (if cm.enabled then modRawCardinal (2 * Real.pi * (i : ℝ) / (numSamples : ℝ)) cm else 0)

/-- `prepModParams(diagonalMod, cardinalMod, numSamples)` from
`modulation.ts`: a disabled pattern gets average `1.0`. -/
def prepModParams (dm cm : ModulationParams) (numSamples : ℕ) : ModulationPrep :=
  ⟨dm, cm,
   if dm.enabled then prepSumDiagonal dm numSamples / (numSamples : ℝ) else 1,
   if cm.enabled then prepSumCardinal cm numSamples / (numSamples : ℝ) else 1⟩

open Classical in
/-- The `multiplier` accumulated by `combinedModulation` before the final
safety floor `Math.max(0.1, multiplier)`. -/
def preFloorMultiplier (theta t : ℝ) (prep : ModulationPrep)
    (mb : ModulationBlendParams) : ℝ :=
  let mf := poweredSmoothstep t mb.modStart mb.modEnd mb.modPow
  (1 + (if prep.diagonal.enabled = true ∧ 0 < prep.avgDiagonal then
      mf * (modRawDiagonal theta prep.diagonal / prep.avgDiagonal - 1) else 0)) +
    (if prep.cardinal.enabled = true ∧ 0 < prep.avgCardinal then
      mf * (modRawCardinal theta prep.cardinal / prep.avgCardinal - 1) else 0)

/-- `combinedModulation(theta, t, prep, modBlend)` from `modulation.ts`. -/
def combinedModulation (theta t : ℝ) (prep : ModulationPrep)
    (mb : ModulationBlendParams) : ℝ :=
  max 0.1 (preFloorMultiplier theta t prep mb)

/-- The mean of `combinedModulation(θ, 1, prep, modBlend)` over the same
`360` evenly spaced angles sampled by `prepModParams`' default
`numSamples = 360` (the quantity of the area-preservation property). -/
def combinedModulationMean (prep : ModulationPrep) (mb : ModulationBlendParams) : ℝ :=
  (∑ i in Finset.range 360,
    combinedModulation (2 * Real.pi * (i : ℝ) / 360) 1 prep mb) / 360

/-! ## Mesh assembler (`mesh.ts`) -/

/-- `ShapeBlendParams`: mouth exponent and the shape blend window. -/
structure ShapeBlendParams where
  nMouth : ℝ
  shapeStart : ℝ
  shapeEnd : ℝ
  shapePow : ℝ

/-- `MeshRing` from `types/waveguide.ts`: station parameter, the closed
polyline of `[x, y, z]` points, and the ring metadata. -/
structure MeshRing where
  t : ℝ
  ring : List (ℝ × ℝ × ℝ)
  xH : ℝ
  yH : ℝ
  yV : ℝ
  n : ℝ

/-- `MeshData` from `types/waveguide.ts`. -/
structure MeshData where
  rings : List MeshRing
  numSlices : ℕ

/-- Default point used to totalize JS array indexing on mesh vertices. -/
def defaultVec : ℝ × ℝ × ℝ := (0, 0, 0)

/-- Default ring used to totalize JS array indexing on rings. -/
def defaultRing : MeshRing := ⟨0, [], 0, 0, 0, 0⟩

/-- One iteration of the ring loop in `buildMesh`: the cross-section ring
at `t = ri / numRings`, with smoothstep-blended half-width, half-height
and superellipse exponent, and modulated superellipse points. -/
def buildRing (hPts vPts : List ROSSEPoint) (r0 : ℝ) (sb : ShapeBlendParams)
    (mb : ModulationBlendParams) (prep : ModulationPrep)
    (numRings numSlices : ℕ) (ri : ℕ) : MeshRing :=
  let t : ℝ := (ri : ℝ) / (numRings : ℝ)
  let xH := lookupX hPts t
  let yH := smoothLerp r0 (lookupY hPts t) t sb.shapeStart sb.shapeEnd sb.shapePow
  let yV := smoothLerp r0 (lookupY vPts t) t sb.shapeStart sb.shapeEnd sb.shapePow
  let n := smoothLerp 2 sb.nMouth t sb.shapeStart sb.shapeEnd sb.shapePow
  let ring := (List.range (numSlices + 1)).map fun si : ℕ =>
    let theta : ℝ := 2 * Real.pi * (si : ℝ) / (numSlices : ℝ)
    let c := Real.cos theta
    let s := Real.sin theta
    let modv := combinedModulation theta t prep mb
    (yH * Real.sign c * |c| ^ (2 / n) * modv,
     yV * Real.sign s * |s| ^ (2 / n) * modv,
     xH)
  ⟨t, ring, xH, yH, yV, n⟩

/-- The body of `buildMesh` once both guide curves are present: throat
radius read from `hPts[0].y`, modulation normalization precomputed with
the default `360` samples, and `numRings + 1` rings assembled. -/
def buildMeshCore (hData vData : ROSSEResult) (sb : ShapeBlendParams)
    (mb : ModulationBlendParams) (dm cm : ModulationParams)
    (numRings numSlices : ℕ) : MeshData :=
  let hPts := hData.points
  let vPts := vData.points
  let r0 := (hPts.getD 0 defaultPoint).y
  let prep := prepModParams dm cm 360
  ⟨(List.range (numRings + 1)).map (buildRing hPts vPts r0 sb mb prep numRings numSlices),
   numSlices⟩

/-- `buildMesh(hData, vData, ...)` from `mesh.ts`: `null` when either guide
curve is absent. -/
def buildMesh (hData vData : Option ROSSEResult) (sb : ShapeBlendParams)
    (mb : ModulationBlendParams) (dm cm : ModulationParams)
    (numRings numSlices : ℕ) : Option MeshData :=
  match hData, vData with
  | some hr, some vr => some (buildMeshCore hr vr sb mb dm cm numRings numSlices)
  | _, _ => none

/-! ## Shell generator (`shell.ts`) -/

/-- `ShellParams` from `types/waveguide.ts`. -/
structure ShellParams where
  enabled : Bool
  thickness : ℝ
  throatCap : Bool
  mouthCap : Bool

/-- `ShellMeshData` from `shell.ts`. -/
structure ShellMeshData where
  innerRings : List (List (ℝ × ℝ × ℝ))
  outerRings : List (List (ℝ × ℝ × ℝ))
  normals : List (ℝ × ℝ × ℝ)
  numSlices : ℕ
  hasThroatCap : Bool
  hasMouthCap : Bool

open Classical in
/-- `normalize(x, y, z)` from `shell.ts`, defaulting to `(0,0,1)` for
near-zero length. -/
def normalize3 (x y z : ℝ) : ℝ × ℝ × ℝ :=
  let len := Real.sqrt (x * x + y * y + z * z)
  if len < 1e-10 then (0, 0, 1) else (x / len, y / len, z / len)

/-- Vertex `si` of ring `ri` of a mesh (JS `rings[ri].ring[si]`). -/
def meshVert (md : MeshData) (ri si : ℕ) : ℝ × ℝ × ℝ :=
  (md.rings.getD ri defaultRing).ring.getD si defaultVec

/-- The normalized face normal of quad `(ri, si)` computed inside
`calculateVertexNormals` from the two edges `vB - vA` and `vD - vA`. -/
def faceNormal (md : MeshData) (ri si : ℕ) : ℝ × ℝ × ℝ :=
  let vA := meshVert md ri si
  let vB := meshVert md ri (si + 1)
  let vD := meshVert md (ri + 1) si
  let e1x := vB.1 - vA.1
  let e1y := vB.2.1 - vA.2.1
  let e1z := vB.2.2 - vA.2.2
  let e2x := vD.1 - vA.1
  let e2y := vD.2.1 - vA.2.1
  let e2z := vD.2.2 - vA.2.2
  normalize3 (e1y * e2z - e1z * e2y) (e1z * e2x - e1x * e2z) (e1x * e2y - e1y * e2x)

open Classical in
/-- The accumulated (pre seam fix-up) vertex normal at flat index
`idx = ri * (numSlices+1) + si`: the sum of the face normals of every
quad `(ri, si)` whose four corner indices `a, b, c, d` include `idx` —
exactly what the accumulation loop of `calculateVertexNormals` builds. -/
def nAcc (md : MeshData) (idx : ℕ) : ℝ × ℝ × ℝ :=
  let vpr := md.numSlices + 1
  ∑ ri in Finset.range (md.rings.length - 1), ∑ si in Finset.range md.numSlices,
    (if idx = ri * vpr + si ∨ idx = ri * vpr + si + 1
        ∨ idx = (ri + 1) * vpr + si + 1 ∨ idx = (ri + 1) * vpr + si
      then faceNormal md ri si else 0)

/-- The seam fix-up of `calculateVertexNormals`: the two seam copies
(`si = 0` and `si = numSlices`) of each ring both receive the sum of
their accumulated normals. -/
def nSeamFixed (md : MeshData) (idx : ℕ) : ℝ × ℝ × ℝ :=
  let vpr := md.numSlices + 1
  if idx % vpr = 0 then nAcc md idx + nAcc md (idx + md.numSlices)
  else if idx % vpr = md.numSlices then nAcc md (idx - md.numSlices) + nAcc md idx
  else nAcc md idx

/-- The final normalized vertex normal at flat index `idx`. -/
def vertexNormal (md : MeshData) (idx : ℕ) : ℝ × ℝ × ℝ :=
  let a := nSeamFixed md idx
  normalize3 a.1 a.2.1 a.2.2

/-- The vertex-normal array returned by `calculateVertexNormals`. -/
def shellNormals (md : MeshData) : List (ℝ × ℝ × ℝ) :=
  (List.range (md.rings.length * (md.numSlices + 1))).map (vertexNormal md)

/-- One outer ring of `generateShellMesh`: every vertex offset outward by
`thickness` along its vertex normal, then the wraparound vertex re-forced
to equal the first vertex. -/
def shellOuterRing (md : MeshData) (thickness : ℝ) (ri : ℕ) : List (ℝ × ℝ × ℝ) :=
  let vpr := md.numSlices + 1
  let base := (List.range (md.numSlices + 1)).map fun si : ℕ =>
    let v := meshVert md ri si
    let nv := vertexNormal md (ri * vpr + si)
    (v.1 + nv.1 * thickness, v.2.1 + nv.2.1 * thickness, v.2.2 + nv.2.2 * thickness)
  base.set md.numSlices (base.getD 0 defaultVec)

/-- The `ShellMeshData` built by `generateShellMesh` when the shell is
enabled. -/
def shellCore (md : MeshData) (sp : ShellParams) : ShellMeshData :=
  ⟨md.rings.map MeshRing.ring,
   (List.range md.rings.length).map (shellOuterRing md sp.thickness),
   shellNormals md,
   md.numSlices,
   sp.throatCap,
   sp.mouthCap⟩

/-- `generateShellMesh(meshData, shellParams)` from `shell.ts`: `null`
when the shell is disabled. -/
def generateShellMesh (md : MeshData) (sp : ShellParams) : Option ShellMeshData :=
  if sp.enabled then some (shellCore md sp) else none

/-! ## STL binary encoder (`stl.ts`) -/

/-- `countTriangles(meshData, shellData)` from `stl.ts`. -/
def countTriangles (md : MeshData) (shellData : Option ShellMeshData) : ℕ :=
  let numRings := md.rings.length
  let c := (numRings - 1) * md.numSlices * 2
  match shellData with
  | some _ => c + (numRings - 1) * md.numSlices * 2 + md.numSlices * 2 + md.numSlices * 2
  | none => c

/-- Vertex `si` of ring `ri` of a shell surface (`outerRings[ri][si]` or
`innerRings[ri][si]`). -/
def shellVert (surface : List (List (ℝ × ℝ × ℝ))) (ri si : ℕ) : ℝ × ℝ × ℝ :=
  (surface.getD ri []).getD si defaultVec

/-- The inner-surface triangles written by `exportToSTL`, in write order
(reversed winding: `(v1, v4, v3)` then `(v1, v3, v2)` per quad). -/
def innerTriangles (md : MeshData) :
    List ((ℝ × ℝ × ℝ) × (ℝ × ℝ × ℝ) × (ℝ × ℝ × ℝ)) :=
  (List.range (md.rings.length - 1)).flatMap fun ri =>
    (List.range md.numSlices).flatMap fun si =>
      let v1 := meshVert md ri si
      let v2 := meshVert md ri (si + 1)
      let v3 := meshVert md (ri + 1) (si + 1)
      let v4 := meshVert md (ri + 1) si
      [(v1, v4, v3), (v1, v3, v2)]

/-- The outer-surface triangles written by `exportToSTL`, in write order
(forward winding: `(v1, v2, v3)` then `(v1, v3, v4)` per quad). -/
def outerTriangles (sd : ShellMeshData) (numSlices : ℕ) :
    List ((ℝ × ℝ × ℝ) × (ℝ × ℝ × ℝ) × (ℝ × ℝ × ℝ)) :=
  (List.range (sd.outerRings.length - 1)).flatMap fun ri =>
    (List.range numSlices).flatMap fun si =>
      let v1 := shellVert sd.outerRings ri si
      let v2 := shellVert sd.outerRings ri (si + 1)
      let v3 := shellVert sd.outerRings (ri + 1) (si + 1)
      let v4 := shellVert sd.outerRings (ri + 1) si
      [(v1, v2, v3), (v1, v3, v4)]

/-- The throat edge strip written by `exportToSTL` (always generated when
the shell is enabled). -/
def throatStripTriangles (sd : ShellMeshData) (numSlices : ℕ) :
    List ((ℝ × ℝ × ℝ) × (ℝ × ℝ × ℝ) × (ℝ × ℝ × ℝ)) :=
  (List.range numSlices).flatMap fun si =>
    let o1 := shellVert sd.outerRings 0 si
    let o2 := shellVert sd.outerRings 0 (si + 1)
    let i1 := shellVert sd.innerRings 0 si
    let i2 := shellVert sd.innerRings 0 (si + 1)
    [(o1, i1, i2), (o1, i2, o2)]

/-- The mouth edge strip written by `exportToSTL` (always generated when
the shell is enabled). -/
def mouthStripTriangles (sd : ShellMeshData) (numSlices : ℕ) :
    List ((ℝ × ℝ × ℝ) × (ℝ × ℝ × ℝ) × (ℝ × ℝ × ℝ)) :=
  let lastIdx := sd.outerRings.length - 1
  (List.range numSlices).flatMap fun si =>
    let o1 := shellVert sd.outerRings lastIdx si
    let o2 := shellVert sd.outerRings lastIdx (si + 1)
    let i1 := shellVert sd.innerRings lastIdx si
    let i2 := shellVert sd.innerRings lastIdx (si + 1)
    [(o1, o2, i2), (o1, i2, i1)]

/-- All triangles written by `exportToSTL`, in write order. -/
def stlTriangles (md : MeshData) (shellData : Option ShellMeshData) :
    List ((ℝ × ℝ × ℝ) × (ℝ × ℝ × ℝ) × (ℝ × ℝ × ℝ)) :=
  innerTriangles md ++
    (match shellData with
     | some sd =>
        outerTriangles sd md.numSlices ++ throatStripTriangles sd md.numSlices
          ++ mouthStripTriangles sd md.numSlices
     | none => [])

/-- The four bytes written by `DataView.setUint32(offset, n, true)`
(little-endian). -/
def u32le (n : ℕ) : List ℕ :=
  [n % 256, n / 256 % 256, n / 256 ^ 2 % 256, n / 256 ^ 3 % 256]

/-- Little-endian decoding of a 4-byte sequence. -/
def decodeU32LE (bs : List ℕ) : ℕ :=
  bs.getD 0 0 + 256 * bs.getD 1 0 + 256 ^ 2 * bs.getD 2 0 + 256 ^ 3 * bs.getD 3 0

/-- The abstract content of the `ArrayBuffer` returned by `exportToSTL`:
its byte length, the triangle count, the four little-endian count bytes
at offset `80`, and the ordered triangle records from offset `84` (each
serialized as a fixed 50-byte record: computed normal, three vertices,
zero attribute field).  The concrete byte buffer is a fixed function of
this data (the 80-byte header is the constant tool-name string). -/
structure STLOutput where
  byteLength : ℕ
  triangleCount : ℕ
  countBytes : List ℕ
  triangles : List ((ℝ × ℝ × ℝ) × (ℝ × ℝ × ℝ) × (ℝ × ℝ × ℝ))

/-- `exportToSTL(meshData, shellParams)` from `stl.ts`, abstracted to the
data that determines the output bytes: buffer size
`80 + 4 + 50 * triangleCount`, the count written little-endian at offset
`80`, and the triangle records in write order. -/
def exportToSTL (md : MeshData) (sp : ShellParams) : STLOutput :=
  let shellData := generateShellMesh md sp
  let c := countTriangles md shellData
  ⟨80 + 4 + c * 50, c, u32le c, stlTriangles md shellData⟩

/-! ## Concrete inputs used by witnesses and counterexamples -/

/-- Example R-OSSE parameters with closed-form coefficients: `R = 5`,
`r0 = 3`, `a0 = 0°`, `a = 45°`, `k = 1`, `rho = 3/10`, `b = 0`,
`m = 4/5`, `q = 1`; they give `c1 = 9`, `c2 = 0`, `c3 = 1`, `disc = 64`
and `L = 4`. -/
def pExample : ROSSEParams := ⟨5, 3, 0, 45, 1, 3/10, 0, 4/5, 1⟩

/-- R-OSSE parameters with every field strictly positive (the data-model
validity domain: `b = 1 ≥ 0`, `rho = 3/10 > 0`, `0 < m = 4/5 ≤ 1`):
`R = 5`, `r0 = 1`, `a0 = 45°`, `a = 45°`, `k = 1`, `rho = 3/10`, `b = 1`,
`m = 4/5`, `q = 1`; they give `c1 = 1`, `c2 = 2`, `c3 = 1`, `disc = 100`
and `L = 4`. -/
def pRollback : ROSSEParams := ⟨5, 1, 45, 45, 1, 3/10, 1, 4/5, 1⟩

/-- Like `pRollback` but with apex shift `m = 2/5 ≤ 1/2` (same coefficients
`c1 = 1`, `c2 = 2`, `c3 = 1`, `disc = 100`, `L = 4`). -/
def pHalf : ROSSEParams := ⟨5, 1, 45, 45, 1, 3/10, 1, 2/5, 1⟩

/-- A hand-made flat guide curve (`y = 1` everywhere) with two samples. -/
def hrFlat : ROSSEResult := ⟨[⟨0, 0, 1⟩, ⟨1, 2, 1⟩], 1, 1, 0, 1⟩

/-- Shape blend with `nMouth = 2` and window `[0, 1]`, power `1`. -/
def sbUnit : ShapeBlendParams := ⟨2, 0, 1, 1⟩

/-- Degenerate modulation blend window `[0, 0]` (blend factor `1`
everywhere), power `1`. -/
def mbZero : ModulationBlendParams := ⟨0, 0, 1⟩

/-- Modulation blend window `[0, 1]`, power `1`. -/
def mbUnit : ModulationBlendParams := ⟨0, 1, 1⟩

/-- Enabled diagonal modulation with quarter-integer frequency:
`base = 1`, `amp = 1`, `freq = 1/4`, `exp = 1`. -/
def dmQuarter : ModulationParams := ⟨true, 1, 1, 1/4, 1⟩

/-- Disabled modulation pattern. -/
def cmOff : ModulationParams := ⟨false, 0, 0, 1, 1⟩

/-- The mesh built from the flat guide curve with `1` ring interval,
`4` slices and the quarter-frequency diagonal modulation. -/
def mdQuarter : MeshData := buildMeshCore hrFlat hrFlat sbUnit mbZero dmQuarter cmOff 1 4

/-- Enabled diagonal modulation `base = 0`, `amp = 1`, `freq = 90`,
`exp = 2`. -/
def dmNinety : ModulationParams := ⟨true, 0, 1, 90, 2⟩

/-- Enabled cardinal modulation `base = 0`, `amp = 1`, `freq = 45`,
`exp = 2`. -/
def cmFortyFive : ModulationParams := ⟨true, 0, 1, 45, 2⟩

/-- Enabled constant modulation (`base = 1`, `amp = 0`): every raw sample
is `1`. -/
def dmConst : ModulationParams := ⟨true, 1, 0, 1, 1⟩

/-- A one-ring mesh with two vertices per ring, used by shell/export
witnesses. -/
def mdSmall : MeshData := ⟨[⟨0, [(1, 0, 0), (0, 1, 0)], 0, 1, 1, 2⟩], 1⟩

end

/-! ## Theorems -/

section ClaimC9

/-- C9: `smoothstep` returns `0` for `t ≤ start`, `1` for `t ≥ end`, and
`3s² - 2s³` with `s = (t-start)/(end-start)` clamped to `[0,1]` whenever
`start < end`; for `start ≥ end` it is the step function that is `0`
below `end` and `1` at or above `end`. -/
theorem smoothstep_spec (t start stop : ℝ) :
    (start < stop →
      (t ≤ start → smoothstep t start stop = 0) ∧
      (stop ≤ t → smoothstep t start stop = 1) ∧
      smoothstep t start stop =
        3 * clamp ((t - start) / (stop - start)) 0 1 ^ 2 -
          2 * clamp ((t - start) / (stop - start)) 0 1 ^ 3) ∧
    (stop ≤ start → smoothstep t start stop = if stop ≤ t then 1 else 0) := by
  constructor
  · intro hlt
    have hnot : ¬ start ≥ stop := not_le.mpr hlt
    have hden : (0:ℝ) < stop - start := by linarith
    refine ⟨?_, ?_, ?_⟩
    · intro ht
      have hq : (t - start) / (stop - start) ≤ 0 :=
        div_nonpos_of_nonpos_of_nonneg (by linarith) (le_of_lt hden)
      have hc : clamp ((t - start) / (stop - start)) 0 1 = 0 := by
        unfold clamp
        rw [min_eq_right (by linarith), max_eq_left hq]
      simp only [smoothstep, if_neg hnot]
      rw [hc]; ring
    · intro ht
      have hq : (1:ℝ) ≤ (t - start) / (stop - start) :=
        (le_div_iff₀ hden).mpr (by linarith)
      have hc : clamp ((t - start) / (stop - start)) 0 1 = 1 := by
        unfold clamp
        rw [min_eq_left hq, max_eq_right zero_le_one]
      simp only [smoothstep, if_neg hnot]
      rw [hc]; ring
    · simp only [smoothstep, if_neg hnot]
      ring
  · intro hge
    have hpos : start ≥ stop := hge
    simp only [smoothstep, if_pos hpos, ge_iff_le]

/-- Witness for C9: concrete evaluations of `smoothstep` through
`smoothstep_spec`: at the midpoint of the window `[0,2]` the value is
`1/2`, and for the degenerate window `[5,2]` the value at `t = 3` is
`1`. -/
theorem smoothstep_spec_witness :
    smoothstep (1:ℝ) 0 2 = 1/2 ∧ smoothstep (3:ℝ) 5 2 = 1 := by
  constructor
  · have h := ((smoothstep_spec (1:ℝ) 0 2).1 (by norm_num)).2.2
    rw [h]
    have hc : clamp ((1 - 0) / (2 - 0)) 0 1 = 1/2 := by
      unfold clamp; norm_num
    rw [hc]; norm_num
  · have h := (smoothstep_spec (3:ℝ) 5 2).2 (by norm_num)
    rw [h, if_pos (by norm_num)]

end ClaimC9

section ExampleLemmas

lemma rosseC1_pExample : rosseC1 pExample = 9 := by
  unfold rosseC1 pExample; norm_num

lemma rosseC2_pExample : rosseC2 pExample = 0 := by
  unfold rosseC2 rosseA0 pExample
  norm_num [Real.tan_zero]

lemma rosseC3_pExample : rosseC3 pExample = 1 := by
  have ha : rosseA pExample = Real.pi / 4 := by
    unfold rosseA pExample
    show (45:ℝ) * Real.pi / 180 = Real.pi / 4
    ring
  unfold rosseC3
  rw [ha, Real.tan_pi_div_four, one_pow]

lemma rosseDisc_pExample : rosseDisc pExample = 64 := by
  unfold rosseDisc
  rw [rosseC1_pExample, rosseC2_pExample, rosseC3_pExample]
  unfold pExample; norm_num

lemma rosseL_pExample : rosseL pExample = 4 := by
  unfold rosseL
  rw [rosseDisc_pExample, rosseC2_pExample, rosseC3_pExample]
  rw [show (64:ℝ) = 8 ^ 2 by norm_num, Real.sqrt_sq (by norm_num)]
  norm_num

end ExampleLemmas

section ClaimC2

/-- C2: `computeROSSE` returns `none` exactly when the discriminant
`c2² - 4·c3·(c1 - (R + r0·(k-1))²)` is negative; when it succeeds, the
result has `N+1` sample points and axial length
`L = (√disc - c2)/(2·c3)`. -/
theorem computeROSSE_disc_spec (p : ROSSEParams) (N : ℕ) :
    (computeROSSE p N = none ↔ rosseDisc p < 0) ∧
    ∀ r : ROSSEResult, computeROSSE p N = some r →
      r.points.length = N + 1 ∧
      r.L = (Real.sqrt (rosseDisc p) - rosseC2 p) / (2 * rosseC3 p) := by
  constructor
  · unfold computeROSSE
    by_cases h : rosseDisc p < 0
    · simp [h]
    · simp [h]
  · intro r hr
    unfold computeROSSE at hr
    by_cases h : rosseDisc p < 0
    · rw [if_pos h] at hr; exact absurd hr (by simp)
    · rw [if_neg h] at hr
      have hr' : rosseSome p N = r := Option.some.inj hr
      subst hr'
      constructor
      · unfold rosseSome rossePoints
        rw [List.length_map, List.length_range]
      · unfold rosseSome rosseL
        rw [one_div, inv_mul_eq_div]

/-- Witness for C2: for the example parameters the discriminant is `64 ≥ 0`,
`computeROSSE` succeeds with `11` points for `N = 10`, and the solved
length satisfies the stated formula. -/
theorem computeROSSE_disc_spec_witness :
    computeROSSE pExample 10 = some (rosseSome pExample 10) ∧
    (rosseSome pExample 10).points.length = 11 ∧
    (rosseSome pExample 10).L =
      (Real.sqrt (rosseDisc pExample) - rosseC2 pExample) / (2 * rosseC3 pExample) := by
  have hsome : computeROSSE pExample 10 = some (rosseSome pExample 10) := by
    unfold computeROSSE
    rw [if_neg (not_lt.mpr (by rw [rosseDisc_pExample]; norm_num))]
  have h := (computeROSSE_disc_spec pExample 10).2 _ hsome
  exact ⟨hsome, h.1, h.2⟩

end ClaimC2

section ClaimC4

lemma rossePoints_getD (p : ROSSEParams) (N i : ℕ) (h : i < N + 1) (d : ROSSEPoint) :
    (rossePoints p N).getD i d =
      ⟨(i : ℝ) / (N : ℝ), rosseX p ((i : ℝ) / (N : ℝ)), rosseY p ((i : ℝ) / (N : ℝ))⟩ := by
  unfold rossePoints
  rw [List.getD_eq_getElem _ _ (by simpa using h)]
  simp

lemma rosseC1_pRollback : rosseC1 pRollback = 1 := by
  unfold rosseC1
  show ((1:ℝ) * 1) ^ 2 = 1
  norm_num

lemma rosseC2_pRollback : rosseC2 pRollback = 2 := by
  have ha : rosseA0 pRollback = Real.pi / 4 := by
    unfold rosseA0 pRollback
    show (45:ℝ) * Real.pi / 180 = Real.pi / 4
    ring
  unfold rosseC2
  rw [ha, Real.tan_pi_div_four]
  show (2:ℝ) * 1 * 1 * 1 = 2
  norm_num

lemma rosseC3_pRollback : rosseC3 pRollback = 1 := by
  have ha : rosseA pRollback = Real.pi / 4 := by
    unfold rosseA pRollback
    show (45:ℝ) * Real.pi / 180 = Real.pi / 4
    ring
  unfold rosseC3
  rw [ha, Real.tan_pi_div_four, one_pow]

lemma rosseDisc_pRollback : rosseDisc pRollback = 100 := by
  unfold rosseDisc
  rw [rosseC1_pRollback, rosseC2_pRollback, rosseC3_pRollback]
  show (2:ℝ) * 2 - 4 * 1 * (1 - ((5:ℝ) + 1 * ((1:ℝ) - 1)) ^ 2) = 100
  norm_num

lemma rosseL_pRollback : rosseL pRollback = 4 := by
  unfold rosseL
  rw [rosseDisc_pRollback, rosseC2_pRollback, rosseC3_pRollback]
  rw [show (100:ℝ) = 10 ^ 2 by norm_num, Real.sqrt_sq (by norm_num : (0:ℝ) ≤ 10)]
  norm_num

lemma rosseC1_pHalf : rosseC1 pHalf = 1 := by
  unfold rosseC1
  show ((1:ℝ) * 1) ^ 2 = 1
  norm_num

lemma rosseC2_pHalf : rosseC2 pHalf = 2 := by
  have ha : rosseA0 pHalf = Real.pi / 4 := by
    unfold rosseA0 pHalf
    show (45:ℝ) * Real.pi / 180 = Real.pi / 4
    ring
  unfold rosseC2
  rw [ha, Real.tan_pi_div_four]
  show (2:ℝ) * 1 * 1 * 1 = 2
  norm_num

lemma rosseC3_pHalf : rosseC3 pHalf = 1 := by
  have ha : rosseA pHalf = Real.pi / 4 := by
    unfold rosseA pHalf
    show (45:ℝ) * Real.pi / 180 = Real.pi / 4
    ring
  unfold rosseC3
  rw [ha, Real.tan_pi_div_four, one_pow]

lemma rosseDisc_pHalf : rosseDisc pHalf = 100 := by
  unfold rosseDisc
  rw [rosseC1_pHalf, rosseC2_pHalf, rosseC3_pHalf]
  show (2:ℝ) * 2 - 4 * 1 * (1 - ((5:ℝ) + 1 * ((1:ℝ) - 1)) ^ 2) = 100
  norm_num

lemma rosseL_pHalf : rosseL pHalf = 4 := by
  unfold rosseL
  rw [rosseDisc_pHalf, rosseC2_pHalf, rosseC3_pHalf]
  rw [show (100:ℝ) = 10 ^ 2 by norm_num, Real.sqrt_sq (by norm_num : (0:ℝ) ≤ 10)]
  norm_num

lemma rosseX_pRollback_one : rosseX pRollback 1 = 0 := by
  unfold rosseX
  rw [rosseL_pRollback]
  show (4:ℝ) * (Real.sqrt ((3/10) * (3/10) + (4/5) * (4/5))
      - Real.sqrt ((3/10) * (3/10) + ((1:ℝ) - 4/5) ^ 2)) +
    1 * 4 * (Real.sqrt ((3/10) * (3/10) + ((1:ℝ) - 4/5) ^ 2)
      - Real.sqrt ((3/10) * (3/10) + (4/5) * (4/5))) * 1 * 1 = 0
  ring

lemma rosseX_pRollback_eight_tenths_pos : 0 < rosseX pRollback (8/10) := by
  unfold rosseX
  rw [rosseL_pRollback]
  show (0:ℝ) < 4 * (Real.sqrt ((3/10) * (3/10) + (4/5) * (4/5))
      - Real.sqrt ((3/10) * (3/10) + ((8:ℝ)/10 - 4/5) ^ 2)) +
    1 * 4 * (Real.sqrt ((3/10) * (3/10) + ((1:ℝ) - 4/5) ^ 2)
      - Real.sqrt ((3/10) * (3/10) + (4/5) * (4/5))) * (8/10) * (8/10)
  have h1 : (3/10 : ℝ) * (3/10) + (4/5) * (4/5) = 73/100 := by norm_num
  have h2 : (3/10 : ℝ) * (3/10) + ((8:ℝ)/10 - 4/5) ^ 2 = (3/10) ^ 2 := by norm_num
  have h3 : (3/10 : ℝ) * (3/10) + ((1:ℝ) - 4/5) ^ 2 = 13/100 := by norm_num
  rw [h1, h2, h3, Real.sqrt_sq (by norm_num : (0:ℝ) ≤ 3/10)]
  have hA : (4/5 : ℝ) ≤ Real.sqrt (73/100) := by
    rw [show (4/5 : ℝ) = Real.sqrt ((4/5) ^ 2) from
      (Real.sqrt_sq (by norm_num : (0:ℝ) ≤ 4/5)).symm]
    exact Real.sqrt_le_sqrt (by norm_num)
  have hB : (3/10 : ℝ) ≤ Real.sqrt (13/100) := by
    rw [show (3/10 : ℝ) = Real.sqrt ((3/10) ^ 2) from
      (Real.sqrt_sq (by norm_num : (0:ℝ) ≤ 3/10)).symm]
    exact Real.sqrt_le_sqrt (by norm_num)
  linarith

/-- Counterexample to C4 as stated: `pRollback` lies inside the claim's
validity domain (every field strictly positive, `rho = 3/10 > 0`,
`0 < m = 4/5 ≤ 1`), `computeROSSE` succeeds with discriminant `100`, yet
sample `10` (at `t = 1`, where `x = 0` exactly since `b = 1`) has a
strictly smaller axial coordinate than sample `8` (at `t = 4/5`): the
R-OSSE profile rolls back past the apex-shift parameter `m`, so the
sampled `x(t)` is not non-decreasing over the `N+1` samples. -/
theorem rosseX_not_monotone :
    (0 < pRollback.R ∧ 0 < pRollback.r0 ∧ 0 < pRollback.a0_deg ∧
      0 < pRollback.a_deg ∧ 0 < pRollback.k ∧ 0 < pRollback.rho ∧
      0 ≤ pRollback.b ∧ 0 < pRollback.m ∧ pRollback.m ≤ 1 ∧ 0 < pRollback.q) ∧
    computeROSSE pRollback 10 = some (rosseSome pRollback 10) ∧
    ((rosseSome pRollback 10).points.getD 10 defaultPoint).x <
      ((rosseSome pRollback 10).points.getD 8 defaultPoint).x := by
  refine ⟨by norm_num [pRollback], ?_, ?_⟩
  · unfold computeROSSE
    rw [if_neg (not_lt.mpr (by rw [rosseDisc_pRollback]; norm_num))]
  · show ((rossePoints pRollback 10).getD 10 defaultPoint).x <
      ((rossePoints pRollback 10).getD 8 defaultPoint).x
    rw [rossePoints_getD _ _ _ (by norm_num) _, rossePoints_getD _ _ _ (by norm_num) _]
    show rosseX pRollback (((10:ℕ) : ℝ) / ((10:ℕ) : ℝ)) <
      rosseX pRollback (((8:ℕ) : ℝ) / ((10:ℕ) : ℝ))
    rw [show ((10:ℕ) : ℝ) / ((10:ℕ) : ℝ) = 1 by norm_num,
      show ((8:ℕ) : ℝ) / ((10:ℕ) : ℝ) = 8/10 by norm_num]
    rw [rosseX_pRollback_one]
    exact rosseX_pRollback_eight_tenths_pos

/-- C4 (amended): for parameters with a non-negative solved length, the
sampled axial coordinate `x(t)` is non-decreasing over the samples lying
at or before the apex-shift parameter `m`, provided the bending term is
also non-decreasing there — that is, `b = 0`, or `b ≥ 0` together with
`m ≤ 1/2` (which makes the bending coefficient
`√(ρ²+(1−m)²) − √(ρ²+m²)` non-negative); past `m` the R-OSSE profile may
roll back (even with every field strictly positive), so the sampled `x`
is not non-decreasing over all `N+1` samples. -/
theorem rosseX_monotone_before_apex (p : ROSSEParams) (N i j : ℕ) (d : ROSSEPoint)
    (hL : 0 ≤ rosseL p) (hij : i ≤ j) (hjN : j ≤ N)
    (hm : (j : ℝ) / (N : ℝ) ≤ p.m)
    (hbc : p.b = 0 ∨ (0 ≤ p.b ∧ p.m ≤ 1/2)) :
    ((rossePoints p N).getD i d).x ≤ ((rossePoints p N).getD j d).x := by
  rw [rossePoints_getD _ _ _ (by omega) _, rossePoints_getD _ _ _ (by omega) _]
  show rosseX p ((i : ℝ) / (N : ℝ)) ≤ rosseX p ((j : ℝ) / (N : ℝ))
  set ti : ℝ := (i : ℝ) / (N : ℝ) with hti
  set tj : ℝ := (j : ℝ) / (N : ℝ) with htj
  have hti0 : 0 ≤ ti := by
    rw [hti]
    exact div_nonneg (Nat.cast_nonneg i) (Nat.cast_nonneg N)
  have htij : ti ≤ tj := by
    rcases Nat.eq_zero_or_pos N with hN | hN
    · subst hN; simp [hti, htj]
    · have hNpos : (0:ℝ) < (N : ℝ) := by exact_mod_cast hN
      exact (div_le_div_iff_of_pos_right hNpos).mpr (by exact_mod_cast hij)
  have hjm : tj ≤ p.m := hm
  have h1 : 0 ≤ p.m - tj := by linarith
  have h2 : p.m - tj ≤ p.m - ti := by linarith
  have hsq : (tj - p.m) ^ 2 ≤ (ti - p.m) ^ 2 := by
    have hp := pow_le_pow_left₀ h1 h2 2
    calc (tj - p.m) ^ 2 = (p.m - tj) ^ 2 := by ring
      _ ≤ (p.m - ti) ^ 2 := hp
      _ = (ti - p.m) ^ 2 := by ring
  have hsqrt : Real.sqrt (p.rho * p.rho + (tj - p.m) ^ 2)
      ≤ Real.sqrt (p.rho * p.rho + (ti - p.m) ^ 2) :=
    Real.sqrt_le_sqrt (by linarith)
  unfold rosseX
  apply add_le_add
  · exact mul_le_mul_of_nonneg_left (by linarith) hL
  · rcases hbc with hb0 | ⟨hb, hm2⟩
    · rw [hb0]
      simp only [zero_mul]
      exact le_refl 0
    · have hC : 0 ≤ Real.sqrt (p.rho * p.rho + (1 - p.m) ^ 2)
          - Real.sqrt (p.rho * p.rho + p.m * p.m) := by
        rw [sub_nonneg]
        apply Real.sqrt_le_sqrt
        nlinarith [hm2]
      have hK : 0 ≤ p.b * rosseL p * (Real.sqrt (p.rho * p.rho + (1 - p.m) ^ 2)
          - Real.sqrt (p.rho * p.rho + p.m * p.m)) :=
        mul_nonneg (mul_nonneg hb hL) hC
      have hsq2 : ti * ti ≤ tj * tj := mul_self_le_mul_self hti0 htij
      nlinarith [mul_nonneg hK (sub_nonneg.mpr hsq2)]

/-- Witness for the amended C4: `pHalf` (every field strictly positive,
`b = 1`, `m = 2/5 ≤ 1/2`, solved length `4 ≥ 0`): the samples `1 ≤ 3`
lie before the apex shift (`3/10 ≤ 2/5`) and the axial samples are
correspondingly ordered. -/
theorem rosseX_monotone_before_apex_witness :
    0 ≤ rosseL pHalf ∧ ((3:ℕ) : ℝ) / ((10:ℕ) : ℝ) ≤ pHalf.m ∧
    (0 ≤ pHalf.b ∧ pHalf.m ≤ 1/2) ∧
    ((rossePoints pHalf 10).getD 1 defaultPoint).x ≤
      ((rossePoints pHalf 10).getD 3 defaultPoint).x := by
  have hL : 0 ≤ rosseL pHalf := by rw [rosseL_pHalf]; norm_num
  have hm : ((3:ℕ) : ℝ) / ((10:ℕ) : ℝ) ≤ pHalf.m := by
    show ((3:ℕ) : ℝ) / ((10:ℕ) : ℝ) ≤ 2/5
    norm_num
  have hb2 : 0 ≤ pHalf.b ∧ pHalf.m ≤ 1/2 := by
    constructor
    · show (0:ℝ) ≤ 1; norm_num
    · show (2/5 : ℝ) ≤ 1/2; norm_num
  exact ⟨hL, hm, hb2,
    rosseX_monotone_before_apex pHalf 10 1 3 defaultPoint hL
      (by norm_num) (by norm_num) hm (Or.inr hb2)⟩

end ClaimC4

section BlendHelpers

lemma smoothstep_eq_zero_of_le (t ss se : ℝ) (h1 : t ≤ ss) (h2 : ss < se) :
    smoothstep t ss se = 0 := by
  have hnot : ¬ ss ≥ se := not_le.mpr h2
  have hden : (0:ℝ) < se - ss := by linarith
  have hq : (t - ss) / (se - ss) ≤ 0 :=
    div_nonpos_of_nonpos_of_nonneg (by linarith) (le_of_lt hden)
  have hc : clamp ((t - ss) / (se - ss)) 0 1 = 0 := by
    unfold clamp
    rw [min_eq_right (by linarith), max_eq_left hq]
  simp only [smoothstep, if_neg hnot]
  rw [hc]; ring

lemma smoothstep_eq_one_of_ge (t ss se : ℝ) (h : se ≤ t) :
    smoothstep t ss se = 1 := by
  unfold smoothstep
  by_cases hd : ss ≥ se
  · rw [if_pos hd, if_pos (by exact h)]
  · rw [if_neg hd]
    have hden : (0:ℝ) < se - ss := by
      push_neg at hd; linarith
    have hq : (1:ℝ) ≤ (t - ss) / (se - ss) :=
      (le_div_iff₀ hden).mpr (by linarith)
    have hc : clamp ((t - ss) / (se - ss)) 0 1 = 1 := by
      unfold clamp
      rw [min_eq_left hq, max_eq_right zero_le_one]
    simp only
    rw [hc]; ring

lemma poweredSmoothstep_eq_zero (t ss se pw : ℝ) (h1 : t ≤ ss) (h2 : ss < se)
    (hp : pw ≠ 0) : poweredSmoothstep t ss se pw = 0 := by
  rw [poweredSmoothstep, smoothstep_eq_zero_of_le t ss se h1 h2, Real.zero_rpow hp]

lemma poweredSmoothstep_eq_one (t ss se pw : ℝ) (h : se ≤ t) :
    poweredSmoothstep t ss se pw = 1 := by
  rw [poweredSmoothstep, smoothstep_eq_one_of_ge t ss se h, Real.one_rpow]

lemma lerp_zero (a b : ℝ) : lerp a b 0 = a := by unfold lerp; ring

lemma lerp_self (a t : ℝ) : lerp a a t = a := by unfold lerp; ring

end BlendHelpers

section ClaimC7

/-- C7: the combined modulation multiplier is always at least the `0.1`
safety floor — `combinedModulation` is total, never zero or negative, and
signals no error to the caller. -/
theorem combinedModulation_floor (theta t : ℝ) (prep : ModulationPrep)
    (mb : ModulationBlendParams) :
    (0.1 : ℝ) ≤ combinedModulation theta t prep mb :=
  le_max_left _ _

end ClaimC7

section ClaimC8

/-- C8: with the shell enabled, `generateShellMesh` succeeds and its inner
surface is exactly the rings of the input mesh, unchanged; the input
`MeshData` is untouched (the embedding is pure, and the shell only adds
the thickness offset to `outerRings`). -/
theorem generateShellMesh_inner_unchanged (md : MeshData) (sp : ShellParams)
    (h : sp.enabled = true) :
    generateShellMesh md sp = some (shellCore md sp) ∧
    (shellCore md sp).innerRings = md.rings.map MeshRing.ring := by
  refine ⟨?_, rfl⟩
  unfold generateShellMesh
  rw [if_pos h]

/-- Witness for C8: a concrete enabled-shell call on the one-ring mesh. -/
theorem generateShellMesh_inner_unchanged_witness :
    ShellParams.enabled ⟨true, 2, false, true⟩ = true ∧
    generateShellMesh mdSmall ⟨true, 2, false, true⟩ =
      some (shellCore mdSmall ⟨true, 2, false, true⟩) ∧
    (shellCore mdSmall ⟨true, 2, false, true⟩).innerRings =
      mdSmall.rings.map MeshRing.ring := by
  have h := generateShellMesh_inner_unchanged mdSmall ⟨true, 2, false, true⟩ rfl
  exact ⟨rfl, h.1, h.2⟩

end ClaimC8

section ClaimC10

lemma stlTriangles_some (md : MeshData) (sd : ShellMeshData) :
    stlTriangles md (some sd) =
      innerTriangles md ++
        (outerTriangles sd md.numSlices ++ throatStripTriangles sd md.numSlices
          ++ mouthStripTriangles sd md.numSlices) := rfl

lemma stlTriangles_congr (md : MeshData) (sd sd' : ShellMeshData)
    (hi : sd.innerRings = sd'.innerRings) (ho : sd.outerRings = sd'.outerRings) :
    stlTriangles md (some sd) = stlTriangles md (some sd') := by
  rw [stlTriangles_some, stlTriangles_some]
  unfold outerTriangles throatStripTriangles mouthStripTriangles
  rw [hi, ho]

/-- C10: the `throatCap`/`mouthCap` flags have no effect on the exported
STL: for two enabled `ShellParams` with the same thickness, `exportToSTL`
produces identical output (size, count, count bytes and every triangle
record) — the closing strips are always generated when the shell is
enabled. -/
theorem exportToSTL_caps_no_effect (md : MeshData) (sp1 sp2 : ShellParams)
    (h1 : sp1.enabled = true) (h2 : sp2.enabled = true)
    (ht : sp1.thickness = sp2.thickness) :
    exportToSTL md sp1 = exportToSTL md sp2 := by
  have houter : (shellCore md sp1).outerRings = (shellCore md sp2).outerRings := by
    show (List.range md.rings.length).map (shellOuterRing md sp1.thickness) =
      (List.range md.rings.length).map (shellOuterRing md sp2.thickness)
    rw [ht]
  have hcount : countTriangles md (some (shellCore md sp1)) =
      countTriangles md (some (shellCore md sp2)) := rfl
  have htris : stlTriangles md (some (shellCore md sp1)) =
      stlTriangles md (some (shellCore md sp2)) :=
    stlTriangles_congr md _ _ rfl houter
  simp only [exportToSTL, generateShellMesh, h1, h2, if_true]
  rw [hcount, htris]

/-- Witness for C10: on the one-ring mesh, shell parameters that differ
only in both cap flags export identical STL data. -/
theorem exportToSTL_caps_no_effect_witness :
    exportToSTL mdSmall ⟨true, 2, true, true⟩ =
      exportToSTL mdSmall ⟨true, 2, false, false⟩ :=
  exportToSTL_caps_no_effect mdSmall ⟨true, 2, true, true⟩ ⟨true, 2, false, false⟩
    rfl rfl rfl

end ClaimC10

section ClaimC1

lemma decodeU32LE_u32le (n : ℕ) : decodeU32LE (u32le n) = n % 2 ^ 32 := by
  unfold decodeU32LE u32le
  simp only [List.getD]
  norm_num
  omega

/-- C1: for a mesh with `r + 1` rings and `s` slices, `countTriangles`
returns `2·r·s` with no shell and `4·r·s + 4·s` with the shell
generated, and the `exportToSTL` buffer has byte length exactly
`80 + 4 + 50·count`, with `count` stored as a little-endian 32-bit
unsigned integer at byte offset `80`. -/
theorem countTriangles_stl_layout (md : MeshData) (r s : ℕ) (sp : ShellParams)
    (hr : md.rings.length = r + 1) (hs : md.numSlices = s) :
    (generateShellMesh md sp = none →
      countTriangles md (generateShellMesh md sp) = 2 * r * s) ∧
    (∀ sd, generateShellMesh md sp = some sd →
      countTriangles md (generateShellMesh md sp) = 4 * r * s + 4 * s) ∧
    (exportToSTL md sp).triangleCount = countTriangles md (generateShellMesh md sp) ∧
    (exportToSTL md sp).byteLength = 80 + 4 + 50 * (exportToSTL md sp).triangleCount ∧
    (exportToSTL md sp).countBytes = u32le (exportToSTL md sp).triangleCount ∧
    decodeU32LE ((exportToSTL md sp).countBytes) =
      (exportToSTL md sp).triangleCount % 2 ^ 32 := by
  refine ⟨?_, ?_, rfl, ?_, rfl, decodeU32LE_u32le _⟩
  · intro h
    rw [h]
    unfold countTriangles
    rw [hr, hs]
    simp only [Nat.add_sub_cancel]
    ring
  · intro sd h
    rw [h]
    unfold countTriangles
    rw [hr, hs]
    simp only [Nat.add_sub_cancel]
    ring
  · show 80 + 4 + countTriangles md (generateShellMesh md sp) * 50 =
      80 + 4 + 50 * countTriangles md (generateShellMesh md sp)
    ring

/-- Witness for C1: the one-ring mesh (`r = 0`, `s = 1`) with an enabled
shell has `4·0·1 + 4·1 = 4` triangles and a `80 + 4 + 50·4`-byte buffer
with the count stored little-endian. -/
theorem countTriangles_stl_layout_witness :
    mdSmall.rings.length = 0 + 1 ∧ mdSmall.numSlices = 1 ∧
    countTriangles mdSmall (generateShellMesh mdSmall ⟨true, 2, true, true⟩) =
      4 * 0 * 1 + 4 * 1 ∧
    (exportToSTL mdSmall ⟨true, 2, true, true⟩).byteLength =
      80 + 4 + 50 * (exportToSTL mdSmall ⟨true, 2, true, true⟩).triangleCount ∧
    decodeU32LE ((exportToSTL mdSmall ⟨true, 2, true, true⟩).countBytes) =
      (exportToSTL mdSmall ⟨true, 2, true, true⟩).triangleCount % 2 ^ 32 := by
  have h := countTriangles_stl_layout mdSmall 0 1 ⟨true, 2, true, true⟩ rfl rfl
  refine ⟨rfl, rfl, ?_, h.2.2.2.1, h.2.2.2.2.2⟩
  exact h.2.1 (shellCore mdSmall ⟨true, 2, true, true⟩) (by unfold generateShellMesh; rw [if_pos rfl])

end ClaimC1

section ListHelpers

lemma getD_range_map {α : Type} (n i : ℕ) (f : ℕ → α) (d : α) (h : i < n) :
    ((List.range n).map f).getD i d = f i := by
  rw [List.getD_eq_getElem _ _ (by simpa using h)]
  simp

end ListHelpers

section ClaimC6

lemma rosseY_zero (p : ROSSEParams) (hq : 0 < p.q) (hk : 0 < p.k) (hr0 : 0 < p.r0) :
    rosseY p 0 = p.r0 := by
  unfold rosseY
  rw [Real.zero_rpow hq.ne']
  have harg : rosseC1 p + rosseC2 p * rosseL p * 0 +
      rosseC3 p * rosseL p * rosseL p * 0 * 0 = (p.k * p.r0) ^ 2 := by
    unfold rosseC1; ring
  rw [harg, Real.sqrt_sq (le_of_lt (mul_pos hk hr0))]
  ring

/-- C6: for a blend window inside `[0,1]` with `shapeStart < shapeEnd` and
positive blend power, the first ring (`t = 0`) of the mesh built from two
successfully solved profile curves has superellipse exponent `n = 2` and
half-width and half-height both equal to the throat radius `r0` of the
horizontal curve's parameters, independent of `nMouth`. -/
theorem buildMesh_throat_circular
    (hp vp : ROSSEParams) (N : ℕ) (hres vres : ROSSEResult)
    (sb : ShapeBlendParams) (mb : ModulationBlendParams) (dm cm : ModulationParams)
    (numRings numSlices : ℕ)
    (hh : computeROSSE hp N = some hres) (hv : computeROSSE vp N = some vres)
    (hs0 : 0 ≤ sb.shapeStart) (hlt : sb.shapeStart < sb.shapeEnd)
    (hse1 : sb.shapeEnd ≤ 1) (hpow : 0 < sb.shapePow)
    (hk : 0 < hp.k) (hr0 : 0 < hp.r0) (hq : 0 < hp.q) :
    buildMesh (some hres) (some vres) sb mb dm cm numRings numSlices =
      some (buildMeshCore hres vres sb mb dm cm numRings numSlices) ∧
    ((buildMeshCore hres vres sb mb dm cm numRings numSlices).rings.getD 0
      defaultRing).n = 2 ∧
    ((buildMeshCore hres vres sb mb dm cm numRings numSlices).rings.getD 0
      defaultRing).yH = hp.r0 ∧
    ((buildMeshCore hres vres sb mb dm cm numRings numSlices).rings.getD 0
      defaultRing).yV = hp.r0 := by
  have hres_eq : hres = rosseSome hp N := by
    unfold computeROSSE at hh
    by_cases hd : rosseDisc hp < 0
    · rw [if_pos hd] at hh; exact absurd hh (by simp)
    · rw [if_neg hd] at hh; exact (Option.some.inj hh).symm
  subst hres_eq
  have hcore : (buildMeshCore (rosseSome hp N) vres sb mb dm cm numRings
        numSlices).rings.getD 0 defaultRing =
      buildRing (rosseSome hp N).points vres.points
        (((rosseSome hp N).points.getD 0 defaultPoint).y) sb mb
        (prepModParams dm cm 360) numRings numSlices 0 := by
    show ((List.range (numRings + 1)).map
        (buildRing (rosseSome hp N).points vres.points
          (((rosseSome hp N).points.getD 0 defaultPoint).y) sb mb
          (prepModParams dm cm 360) numRings numSlices)).getD 0 defaultRing = _
    exact getD_range_map _ _ _ _ (Nat.succ_pos _)
  have hzero : poweredSmoothstep 0 sb.shapeStart sb.shapeEnd sb.shapePow = 0 :=
    poweredSmoothstep_eq_zero 0 sb.shapeStart sb.shapeEnd sb.shapePow hs0 hlt hpow.ne'
  have hr0v : (((rosseSome hp N).points.getD 0 defaultPoint).y) = hp.r0 := by
    show (((rossePoints hp N).getD 0 defaultPoint).y) = hp.r0
    rw [rossePoints_getD hp N 0 (Nat.succ_pos N) defaultPoint]
    show rosseY hp (((0:ℕ) : ℝ) / (N : ℝ)) = hp.r0
    rw [Nat.cast_zero, zero_div]
    exact rosseY_zero hp hq hk hr0
  refine ⟨rfl, ?_, ?_, ?_⟩
  · rw [hcore]
    show smoothLerp 2 sb.nMouth (((0:ℕ) : ℝ) / (numRings : ℝ))
      sb.shapeStart sb.shapeEnd sb.shapePow = 2
    rw [Nat.cast_zero, zero_div]
    unfold smoothLerp
    rw [hzero, lerp_zero]
  · rw [hcore]
    show smoothLerp (((rosseSome hp N).points.getD 0 defaultPoint).y)
      (lookupY (rosseSome hp N).points (((0:ℕ) : ℝ) / (numRings : ℝ)))
      (((0:ℕ) : ℝ) / (numRings : ℝ)) sb.shapeStart sb.shapeEnd sb.shapePow = hp.r0
    rw [Nat.cast_zero, zero_div]
    unfold smoothLerp
    rw [hzero, lerp_zero, hr0v]
  · rw [hcore]
    show smoothLerp (((rosseSome hp N).points.getD 0 defaultPoint).y)
      (lookupY vres.points (((0:ℕ) : ℝ) / (numRings : ℝ)))
      (((0:ℕ) : ℝ) / (numRings : ℝ)) sb.shapeStart sb.shapeEnd sb.shapePow = hp.r0
    rw [Nat.cast_zero, zero_div]
    unfold smoothLerp
    rw [hzero, lerp_zero, hr0v]

/-- Witness for C6: for the example parameters (throat radius `3`),
`nMouth = 2`, blend window `[0,1]`, the first ring of the built mesh has
`n = 2` and `yH = yV = 3`. -/
theorem buildMesh_throat_circular_witness :
    ((buildMeshCore (rosseSome pExample 10) (rosseSome pExample 10) sbUnit mbUnit
      cmOff cmOff 1 4).rings.getD 0 defaultRing).n = 2 ∧
    ((buildMeshCore (rosseSome pExample 10) (rosseSome pExample 10) sbUnit mbUnit
      cmOff cmOff 1 4).rings.getD 0 defaultRing).yH = pExample.r0 ∧
    ((buildMeshCore (rosseSome pExample 10) (rosseSome pExample 10) sbUnit mbUnit
      cmOff cmOff 1 4).rings.getD 0 defaultRing).yV = pExample.r0 := by
  have hsome : computeROSSE pExample 10 = some (rosseSome pExample 10) := by
    unfold computeROSSE
    rw [if_neg (not_lt.mpr (by rw [rosseDisc_pExample]; norm_num))]
  have h := buildMesh_throat_circular pExample pExample 10
    (rosseSome pExample 10) (rosseSome pExample 10) sbUnit mbUnit cmOff cmOff 1 4
    hsome hsome (le_refl 0) (by norm_num [sbUnit]) (le_refl 1)
    (by norm_num [sbUnit]) (by norm_num [pExample]) (by norm_num [pExample])
    (by norm_num [pExample])
  exact ⟨h.2.1, h.2.2.1, h.2.2.2⟩

end ClaimC6

section ClaimC3

lemma getD_set_last_eq_getD_zero {α : Type} (base : List α) (S : ℕ) (d : α)
    (hlen : base.length = S + 1) :
    (base.set S (base.getD 0 d)).getD 0 d = (base.set S (base.getD 0 d)).getD S d := by
  rcases Nat.eq_zero_or_pos S with hS | hS
  · subst hS; rfl
  · have h0 : 0 < (base.set S (base.getD 0 d)).length := by
      rw [List.length_set, hlen]; omega
    have hSlt : S < (base.set S (base.getD 0 d)).length := by
      rw [List.length_set, hlen]; omega
    rw [List.getD_eq_getElem _ _ h0, List.getD_eq_getElem _ _ hSlt]
    rw [List.getElem_set_ne (by omega), List.getElem_set_self]
    exact (List.getD_eq_getElem _ _ (by rw [hlen]; omega)).symm

lemma modRawDiagonal_two_pi (mp : ModulationParams) (z : ℤ) (hf : mp.freq = (z:ℝ)/2) :
    modRawDiagonal (2 * Real.pi) mp = modRawDiagonal 0 mp := by
  unfold modRawDiagonal
  rw [mul_zero, Real.sin_zero, hf]
  have h1 : (z:ℝ)/2 * (2 * Real.pi) = (z:ℝ) * Real.pi := by ring
  rw [h1, Real.sin_int_mul_pi]

lemma modRawCardinal_two_pi (mp : ModulationParams) (z : ℤ) (hf : mp.freq = (z:ℝ)/2) :
    modRawCardinal (2 * Real.pi) mp = modRawCardinal 0 mp := by
  unfold modRawCardinal
  rw [mul_zero, Real.cos_zero, hf]
  have h1 : (z:ℝ)/2 * (2 * Real.pi) = (z:ℝ) * Real.pi := by ring
  rw [h1]
  have h2 : |Real.cos ((z:ℝ) * Real.pi)| = 1 := by
    have hs := Real.sin_sq_add_cos_sq ((z:ℝ) * Real.pi)
    rw [Real.sin_int_mul_pi] at hs
    have hc : Real.cos ((z:ℝ) * Real.pi) ^ 2 = 1 := by nlinarith [hs]
    rw [← Real.sqrt_sq_eq_abs, hc, Real.sqrt_one]
  rw [h2, abs_one]

lemma combinedModulation_two_pi (t : ℝ) (prep : ModulationPrep)
    (mb : ModulationBlendParams)
    (hdf : prep.diagonal.enabled = true → ∃ z : ℤ, prep.diagonal.freq = (z:ℝ)/2)
    (hcf : prep.cardinal.enabled = true → ∃ z : ℤ, prep.cardinal.freq = (z:ℝ)/2) :
    combinedModulation (2 * Real.pi) t prep mb = combinedModulation 0 t prep mb := by
  simp only [combinedModulation, preFloorMultiplier]
  have hD : (if prep.diagonal.enabled = true ∧ 0 < prep.avgDiagonal then
        poweredSmoothstep t mb.modStart mb.modEnd mb.modPow *
          (modRawDiagonal (2 * Real.pi) prep.diagonal / prep.avgDiagonal - 1) else 0) =
      (if prep.diagonal.enabled = true ∧ 0 < prep.avgDiagonal then
        poweredSmoothstep t mb.modStart mb.modEnd mb.modPow *
          (modRawDiagonal 0 prep.diagonal / prep.avgDiagonal - 1) else 0) := by
    by_cases h1 : prep.diagonal.enabled = true ∧ 0 < prep.avgDiagonal
    · obtain ⟨z, hz⟩ := hdf h1.1
      rw [if_pos h1, if_pos h1, modRawDiagonal_two_pi prep.diagonal z hz]
    · rw [if_neg h1, if_neg h1]
  have hC : (if prep.cardinal.enabled = true ∧ 0 < prep.avgCardinal then
        poweredSmoothstep t mb.modStart mb.modEnd mb.modPow *
          (modRawCardinal (2 * Real.pi) prep.cardinal / prep.avgCardinal - 1) else 0) =
      (if prep.cardinal.enabled = true ∧ 0 < prep.avgCardinal then
        poweredSmoothstep t mb.modStart mb.modEnd mb.modPow *
          (modRawCardinal 0 prep.cardinal / prep.avgCardinal - 1) else 0) := by
    by_cases h1 : prep.cardinal.enabled = true ∧ 0 < prep.avgCardinal
    · obtain ⟨z, hz⟩ := hcf h1.1
      rw [if_pos h1, if_pos h1, modRawCardinal_two_pi prep.cardinal z hz]
    · rw [if_neg h1, if_neg h1]
  rw [hD, hC]

lemma buildRing_seam (hPts vPts : List ROSSEPoint) (r0 : ℝ) (sb : ShapeBlendParams)
    (mb : ModulationBlendParams) (prep : ModulationPrep)
    (numRings numSlices ri : ℕ) (hS : 0 < numSlices)
    (hdf : prep.diagonal.enabled = true → ∃ z : ℤ, prep.diagonal.freq = (z:ℝ)/2)
    (hcf : prep.cardinal.enabled = true → ∃ z : ℤ, prep.cardinal.freq = (z:ℝ)/2) :
    (buildRing hPts vPts r0 sb mb prep numRings numSlices ri).ring.getD 0 defaultVec =
      (buildRing hPts vPts r0 sb mb prep numRings numSlices ri).ring.getD
        numSlices defaultVec := by
  simp only [buildRing]
  rw [getD_range_map _ _ _ _ (by omega), getD_range_map _ _ _ _ (by omega)]
  have hθ0 : 2 * Real.pi * ((0:ℕ) : ℝ) / (numSlices : ℝ) = 0 := by
    norm_num
  have hθS : 2 * Real.pi * ((numSlices : ℕ) : ℝ) / (numSlices : ℝ) = 2 * Real.pi := by
    rw [mul_div_assoc, div_self (by exact_mod_cast hS.ne' : (numSlices : ℝ) ≠ 0), mul_one]
  simp only [hθ0, hθS]
  rw [Real.cos_two_pi, Real.cos_zero, Real.sin_two_pi, Real.sin_zero,
    combinedModulation_two_pi _ prep mb hdf hcf]

/-- C3 (amended): the seam closes exactly in the shell's `outerRings`
(re-forced explicitly after offsetting, for every mesh and shell), and in
every `buildMesh` ring provided each *enabled* modulation pattern has a
half-integer frequency (as the integer frequencies offered by the UI do);
an enabled modulation with non-half-integer frequency breaks the
`MeshData` seam because `sin(freq·2π) ≠ sin 0`. -/
theorem seam_closure :
    (∀ (hres vres : ROSSEResult) (sb : ShapeBlendParams) (mb : ModulationBlendParams)
      (dm cm : ModulationParams) (numRings numSlices : ℕ),
      0 < numSlices →
      (dm.enabled = true → ∃ z : ℤ, dm.freq = (z:ℝ)/2) →
      (cm.enabled = true → ∃ z : ℤ, cm.freq = (z:ℝ)/2) →
      ∀ r ∈ (buildMeshCore hres vres sb mb dm cm numRings numSlices).rings,
        r.ring.getD 0 defaultVec = r.ring.getD numSlices defaultVec) ∧
    (∀ (md : MeshData) (sp : ShellParams),
      ∀ oring ∈ (shellCore md sp).outerRings,
        oring.getD 0 defaultVec = oring.getD md.numSlices defaultVec) := by
  constructor
  · intro hres vres sb mb dm cm numRings numSlices hS hdf hcf r hr
    have hr' : r ∈ (List.range (numRings + 1)).map
        (buildRing hres.points vres.points ((hres.points.getD 0 defaultPoint).y)
          sb mb (prepModParams dm cm 360) numRings numSlices) := hr
    obtain ⟨ri, _, rfl⟩ := List.mem_map.mp hr'
    exact buildRing_seam _ _ _ _ _ _ _ _ ri hS hdf hcf
  · intro md sp oring ho
    have ho' : oring ∈ (List.range md.rings.length).map
        (shellOuterRing md sp.thickness) := ho
    obtain ⟨ri, _, rfl⟩ := List.mem_map.mp ho'
    unfold shellOuterRing
    exact getD_set_last_eq_getD_zero _ _ _
      (by rw [List.length_map, List.length_range])

/-- Witness for the amended C3: the mesh built with the enabled
quarter-frequency modulation replaced by a disabled one (no modulation at
all) closes its seam at `4` slices, and so does the outer surface of the
shell of the small mesh. -/
theorem seam_closure_witness :
    (∀ r ∈ (buildMeshCore hrFlat hrFlat sbUnit mbZero cmOff cmOff 1 4).rings,
      r.ring.getD 0 defaultVec = r.ring.getD 4 defaultVec) ∧
    (∀ oring ∈ (shellCore mdSmall ⟨true, 2, true, true⟩).outerRings,
      oring.getD 0 defaultVec = oring.getD mdSmall.numSlices defaultVec) := by
  constructor
  · exact (seam_closure.1 hrFlat hrFlat sbUnit mbZero cmOff cmOff 1 4
      (by norm_num) (fun h => absurd h (by norm_num [cmOff]))
      (fun h => absurd h (by norm_num [cmOff])))
  · exact seam_closure.2 mdSmall ⟨true, 2, true, true⟩

lemma buildRing_ring_getD (hPts vPts : List ROSSEPoint) (r0 : ℝ)
    (sb : ShapeBlendParams) (mb : ModulationBlendParams) (prep : ModulationPrep)
    (numRings numSlices ri si : ℕ) (h : si < numSlices + 1) :
    (buildRing hPts vPts r0 sb mb prep numRings numSlices ri).ring.getD si defaultVec =
      (smoothLerp r0 (lookupY hPts ((ri:ℝ)/(numRings:ℝ))) ((ri:ℝ)/(numRings:ℝ))
          sb.shapeStart sb.shapeEnd sb.shapePow
        * Real.sign (Real.cos (2 * Real.pi * (si:ℝ) / (numSlices:ℝ)))
        * |Real.cos (2 * Real.pi * (si:ℝ) / (numSlices:ℝ))| ^
            (2 / smoothLerp 2 sb.nMouth ((ri:ℝ)/(numRings:ℝ))
              sb.shapeStart sb.shapeEnd sb.shapePow)
        * combinedModulation (2 * Real.pi * (si:ℝ) / (numSlices:ℝ))
            ((ri:ℝ)/(numRings:ℝ)) prep mb,
       smoothLerp r0 (lookupY vPts ((ri:ℝ)/(numRings:ℝ))) ((ri:ℝ)/(numRings:ℝ))
          sb.shapeStart sb.shapeEnd sb.shapePow
        * Real.sign (Real.sin (2 * Real.pi * (si:ℝ) / (numSlices:ℝ)))
        * |Real.sin (2 * Real.pi * (si:ℝ) / (numSlices:ℝ))| ^
            (2 / smoothLerp 2 sb.nMouth ((ri:ℝ)/(numRings:ℝ))
              sb.shapeStart sb.shapeEnd sb.shapePow)
        * combinedModulation (2 * Real.pi * (si:ℝ) / (numSlices:ℝ))
            ((ri:ℝ)/(numRings:ℝ)) prep mb,
       lookupX hPts ((ri:ℝ)/(numRings:ℝ))) := by
  simp only [buildRing]
  rw [getD_range_map _ _ _ _ h]

lemma prepSumDiagonal_dmQuarter_bounds :
    360 ≤ prepSumDiagonal dmQuarter 360 ∧ prepSumDiagonal dmQuarter 360 ≤ 720 := by
  have hterm : ∀ i : ℕ,
      (if dmQuarter.enabled = true then
        modRawDiagonal (2 * Real.pi * (i:ℝ) / ((360:ℕ):ℝ)) dmQuarter else 0) =
      1 + |Real.sin ((1/4 : ℝ) * (2 * Real.pi * (i:ℝ) / ((360:ℕ):ℝ)))| := by
    intro i
    rw [if_pos (show dmQuarter.enabled = true from rfl)]
    show (1:ℝ) + 1 * |Real.sin ((1/4 : ℝ) * _)| ^ ((1:ℝ)) = _
    rw [Real.rpow_one, one_mul]
  unfold prepSumDiagonal
  constructor
  · calc (360:ℝ) = ∑ _i in Finset.range 360, (1:ℝ) := by simp
      _ ≤ _ := Finset.sum_le_sum (fun i _ => by
          rw [hterm i]
          have := abs_nonneg (Real.sin ((1/4 : ℝ) * (2 * Real.pi * (i:ℝ) / ((360:ℕ):ℝ))))
          linarith)
  · calc ∑ i in Finset.range 360,
        (if dmQuarter.enabled = true then
          modRawDiagonal (2 * Real.pi * (i:ℝ) / ((360:ℕ):ℝ)) dmQuarter else 0)
        ≤ ∑ _i in Finset.range 360, (2:ℝ) := Finset.sum_le_sum (fun i _ => by
          rw [hterm i]
          have := abs_le.mpr ⟨Real.neg_one_le_sin ((1/4 : ℝ) *
            (2 * Real.pi * (i:ℝ) / ((360:ℕ):ℝ))),
            Real.sin_le_one ((1/4 : ℝ) * (2 * Real.pi * (i:ℝ) / ((360:ℕ):ℝ)))⟩
          linarith)
      _ = 720 := by simp; norm_num

lemma avgDiagonal_quarter :
    (prepModParams dmQuarter cmOff 360).avgDiagonal =
      prepSumDiagonal dmQuarter 360 / 360 := by
  show (if dmQuarter.enabled = true then
    prepSumDiagonal dmQuarter 360 / ((360:ℕ):ℝ) else 1) = _
  rw [if_pos (show dmQuarter.enabled = true from rfl)]
  norm_num

lemma combinedModulation_quarter_zero :
    combinedModulation 0 0 (prepModParams dmQuarter cmOff 360) mbZero =
      360 / prepSumDiagonal dmQuarter 360 := by
  have hA := prepSumDiagonal_dmQuarter_bounds
  have hApos : (0:ℝ) < prepSumDiagonal dmQuarter 360 := by linarith [hA.1]
  have havg : (0:ℝ) < (prepModParams dmQuarter cmOff 360).avgDiagonal := by
    rw [avgDiagonal_quarter]; positivity
  simp only [combinedModulation, preFloorMultiplier]
  rw [if_pos ⟨rfl, havg⟩, if_neg (fun hh => Bool.false_ne_true (show false = true from hh.1))]
  have hmf : poweredSmoothstep 0 mbZero.modStart mbZero.modEnd mbZero.modPow = 1 := by
    show poweredSmoothstep 0 0 0 1 = 1
    exact poweredSmoothstep_eq_one 0 0 0 1 (le_refl 0)
  have hraw : modRawDiagonal 0 (prepModParams dmQuarter cmOff 360).diagonal = 1 := by
    show (1:ℝ) + 1 * |Real.sin ((1/4 : ℝ) * 0)| ^ ((1:ℝ)) = 1
    rw [mul_zero, Real.sin_zero, abs_zero, Real.rpow_one]
    norm_num
  rw [hmf, hraw, avgDiagonal_quarter]
  set A := prepSumDiagonal dmQuarter 360 with hAdef
  have h1 : (1:ℝ) + 1 * (1 / (A / 360) - 1) + 0 = 360 / A := by
    field_simp
  rw [h1]
  have hfloor : (0.1:ℝ) ≤ 360 / A := by
    rw [le_div_iff₀ hApos]
    nlinarith [hA.2]
  exact max_eq_right hfloor

lemma combinedModulation_quarter_two_pi :
    combinedModulation (2 * Real.pi) 0 (prepModParams dmQuarter cmOff 360) mbZero =
      720 / prepSumDiagonal dmQuarter 360 := by
  have hA := prepSumDiagonal_dmQuarter_bounds
  have hApos : (0:ℝ) < prepSumDiagonal dmQuarter 360 := by linarith [hA.1]
  have havg : (0:ℝ) < (prepModParams dmQuarter cmOff 360).avgDiagonal := by
    rw [avgDiagonal_quarter]; positivity
  simp only [combinedModulation, preFloorMultiplier]
  rw [if_pos ⟨rfl, havg⟩, if_neg (fun hh => Bool.false_ne_true (show false = true from hh.1))]
  have hmf : poweredSmoothstep 0 mbZero.modStart mbZero.modEnd mbZero.modPow = 1 := by
    show poweredSmoothstep 0 0 0 1 = 1
    exact poweredSmoothstep_eq_one 0 0 0 1 (le_refl 0)
  have hraw : modRawDiagonal (2 * Real.pi) (prepModParams dmQuarter cmOff 360).diagonal
      = 2 := by
    show (1:ℝ) + 1 * |Real.sin ((1/4 : ℝ) * (2 * Real.pi))| ^ ((1:ℝ)) = 2
    rw [show (1/4 : ℝ) * (2 * Real.pi) = Real.pi / 2 by ring, Real.sin_pi_div_two,
      abs_one, Real.one_rpow]
    norm_num
  rw [hmf, hraw, avgDiagonal_quarter]
  set A := prepSumDiagonal dmQuarter 360 with hAdef
  have h1 : (1:ℝ) + 1 * (2 / (A / 360) - 1) + 0 = 720 / A := by
    field_simp
    norm_num
  rw [h1]
  have hfloor : (0.1:ℝ) ≤ 720 / A := by
    rw [le_div_iff₀ hApos]
    nlinarith [hA.2]
  exact max_eq_right hfloor

/-- Counterexample to C3 as stated: with the enabled diagonal modulation of
frequency `1/4` (spec only requires `freq > 0`), the first ring of the
mesh built by `buildMesh` has `ring[0] ≠ ring[slices]`: the modulation
multiplier at `θ = 2π` differs from the one at `θ = 0` because
`sin(freq·2π) ≠ sin 0`, so the angular seam does not close exactly. -/
theorem meshRing_seam_open :
    buildMesh (some hrFlat) (some hrFlat) sbUnit mbZero dmQuarter cmOff 1 4 =
      some mdQuarter ∧
    mdQuarter.numSlices = 4 ∧
    (mdQuarter.rings.getD 0 defaultRing).ring.getD 0 defaultVec ≠
      (mdQuarter.rings.getD 0 defaultRing).ring.getD 4 defaultVec := by
  refine ⟨rfl, rfl, ?_⟩
  have hA := prepSumDiagonal_dmQuarter_bounds
  have hApos : (0:ℝ) < prepSumDiagonal dmQuarter 360 := by linarith [hA.1]
  have hrings : mdQuarter.rings.getD 0 defaultRing =
      buildRing hrFlat.points hrFlat.points 1 sbUnit mbZero
        (prepModParams dmQuarter cmOff 360) 1 4 0 := by
    show ((List.range (1 + 1)).map
        (buildRing hrFlat.points hrFlat.points
          ((hrFlat.points.getD 0 defaultPoint).y) sbUnit mbZero
          (prepModParams dmQuarter cmOff 360) 1 4)).getD 0 defaultRing = _
    exact getD_range_map _ _ _ _ (by omega)
  have hyH : smoothLerp 1 (lookupY hrFlat.points (((0:ℕ):ℝ)/((1:ℕ):ℝ)))
      (((0:ℕ):ℝ)/((1:ℕ):ℝ)) sbUnit.shapeStart sbUnit.shapeEnd sbUnit.shapePow = 1 := by
    have ht : ((0:ℕ):ℝ)/((1:ℕ):ℝ) = 0 := by norm_num
    rw [ht]
    show smoothLerp 1 (lookupY hrFlat.points 0) 0 0 1 1 = 1
    unfold smoothLerp
    rw [poweredSmoothstep_eq_zero 0 0 1 1 (le_refl 0) zero_lt_one one_ne_zero, lerp_zero]
  have e0 : ((mdQuarter.rings.getD 0 defaultRing).ring.getD 0 defaultVec).1 =
      360 / prepSumDiagonal dmQuarter 360 := by
    rw [hrings, buildRing_ring_getD hrFlat.points hrFlat.points 1 sbUnit mbZero
      (prepModParams dmQuarter cmOff 360) 1 4 0 0 (by omega)]
    show smoothLerp 1 (lookupY hrFlat.points (((0:ℕ):ℝ)/((1:ℕ):ℝ)))
        (((0:ℕ):ℝ)/((1:ℕ):ℝ)) sbUnit.shapeStart sbUnit.shapeEnd sbUnit.shapePow
      * Real.sign (Real.cos (2 * Real.pi * ((0:ℕ):ℝ) / ((4:ℕ):ℝ)))
      * |Real.cos (2 * Real.pi * ((0:ℕ):ℝ) / ((4:ℕ):ℝ))| ^ _
      * combinedModulation (2 * Real.pi * ((0:ℕ):ℝ) / ((4:ℕ):ℝ))
          (((0:ℕ):ℝ)/((1:ℕ):ℝ)) (prepModParams dmQuarter cmOff 360) mbZero = _
    have hθ : 2 * Real.pi * ((0:ℕ):ℝ) / ((4:ℕ):ℝ) = 0 := by norm_num
    have ht : ((0:ℕ):ℝ)/((1:ℕ):ℝ) = 0 := by norm_num
    rw [hθ, ht, Real.cos_zero, Real.sign_one, abs_one, Real.one_rpow]
    have ht' : ((0:ℕ):ℝ)/((1:ℕ):ℝ) = 0 := by norm_num
    rw [show smoothLerp 1 (lookupY hrFlat.points 0) 0 sbUnit.shapeStart sbUnit.shapeEnd
        sbUnit.shapePow = 1 from by
      show smoothLerp 1 (lookupY hrFlat.points 0) 0 0 1 1 = 1
      unfold smoothLerp
      rw [poweredSmoothstep_eq_zero 0 0 1 1 (le_refl 0) zero_lt_one one_ne_zero,
        lerp_zero]]
    rw [combinedModulation_quarter_zero]
    ring
  have e4 : ((mdQuarter.rings.getD 0 defaultRing).ring.getD 4 defaultVec).1 =
      720 / prepSumDiagonal dmQuarter 360 := by
    rw [hrings, buildRing_ring_getD hrFlat.points hrFlat.points 1 sbUnit mbZero
      (prepModParams dmQuarter cmOff 360) 1 4 0 4 (by omega)]
    show smoothLerp 1 (lookupY hrFlat.points (((0:ℕ):ℝ)/((1:ℕ):ℝ)))
        (((0:ℕ):ℝ)/((1:ℕ):ℝ)) sbUnit.shapeStart sbUnit.shapeEnd sbUnit.shapePow
      * Real.sign (Real.cos (2 * Real.pi * ((4:ℕ):ℝ) / ((4:ℕ):ℝ)))
      * |Real.cos (2 * Real.pi * ((4:ℕ):ℝ) / ((4:ℕ):ℝ))| ^ _
      * combinedModulation (2 * Real.pi * ((4:ℕ):ℝ) / ((4:ℕ):ℝ))
          (((0:ℕ):ℝ)/((1:ℕ):ℝ)) (prepModParams dmQuarter cmOff 360) mbZero = _
    have hθ : 2 * Real.pi * ((4:ℕ):ℝ) / ((4:ℕ):ℝ) = 2 * Real.pi := by
      push_cast; ring
    have ht : ((0:ℕ):ℝ)/((1:ℕ):ℝ) = 0 := by norm_num
    rw [hθ, ht, Real.cos_two_pi, Real.sign_one, abs_one, Real.one_rpow]
    rw [show smoothLerp 1 (lookupY hrFlat.points 0) 0 sbUnit.shapeStart sbUnit.shapeEnd
        sbUnit.shapePow = 1 from by
      show smoothLerp 1 (lookupY hrFlat.points 0) 0 0 1 1 = 1
      unfold smoothLerp
      rw [poweredSmoothstep_eq_zero 0 0 1 1 (le_refl 0) zero_lt_one one_ne_zero,
        lerp_zero]]
    rw [combinedModulation_quarter_two_pi]
    ring
  intro heq
  have hfst := congrArg Prod.fst heq
  rw [e0, e4] at hfst
  have h360 : (360:ℝ) = 720 := by
    field_simp at hfst
    linarith
  norm_num at h360

end ClaimC3

section ClaimC5

lemma sum_range_periodic_mul (f : ℕ → ℝ) (p n : ℕ)
    (hf : ∀ i, f (i + p) = f i) :
    ∑ i in Finset.range (n * p), f i = (n : ℝ) * ∑ i in Finset.range p, f i := by
  have hshift : ∀ k i, f (k * p + i) = f i := by
    intro k
    induction k with
    | zero => intro i; simp
    | succ k ihk =>
      intro i
      have harg : (k + 1) * p + i = k * p + i + p := by ring
      rw [harg, hf, ihk]
  induction n with
  | zero => simp
  | succ n ih =>
    have hsplit : ∑ i in Finset.range ((n + 1) * p), f i =
        ∑ i in Finset.range (n * p), f i + ∑ i in Finset.range p, f (n * p + i) := by
      rw [Nat.succ_mul, Finset.sum_range_add]
    have hsame : ∑ i in Finset.range p, f (n * p + i) = ∑ i in Finset.range p, f i :=
      Finset.sum_congr rfl (fun i _ => hshift n i)
    rw [hsplit, ih, hsame]
    push_cast
    ring

lemma cos_pi_half_nat (i : ℕ) : Real.cos (Real.pi * (i : ℝ) / 2) =
    if i % 4 = 0 then 1 else if i % 4 = 2 then -1 else 0 := by
  obtain ⟨q, r, hr, rfl⟩ : ∃ q r, r < 4 ∧ i = 4 * q + r :=
    ⟨i / 4, i % 4, Nat.mod_lt _ (by norm_num), (Nat.div_add_mod i 4).symm⟩
  have harg : Real.pi * ((4 * q + r : ℕ) : ℝ) / 2 =
      (q : ℝ) * (2 * Real.pi) + Real.pi * (r : ℝ) / 2 := by
    push_cast; ring
  rw [harg]
  interval_cases r
  · rw [show (q:ℝ) * (2 * Real.pi) + Real.pi * ((0:ℕ):ℝ) / 2 = (q:ℝ) * (2 * Real.pi)
      by push_cast; ring]
    rw [Real.cos_nat_mul_two_pi, if_pos (by omega)]
  · rw [show (q:ℝ) * (2 * Real.pi) + Real.pi * ((1:ℕ):ℝ) / 2 =
      (q:ℝ) * (2 * Real.pi) + Real.pi / 2 by push_cast; ring]
    rw [Real.cos_add, Real.cos_nat_mul_two_pi, Real.cos_pi_div_two,
      Real.sin_pi_div_two]
    have hsin : Real.sin ((q:ℝ) * (2 * Real.pi)) = 0 := by
      rw [show (q:ℝ) * (2 * Real.pi) = ((2 * q : ℕ) : ℝ) * Real.pi by push_cast; ring,
        Real.sin_nat_mul_pi]
    rw [hsin, if_neg (by omega), if_neg (by omega)]
    ring
  · rw [show (q:ℝ) * (2 * Real.pi) + Real.pi * ((2:ℕ):ℝ) / 2 =
      (q:ℝ) * (2 * Real.pi) + Real.pi by push_cast; ring]
    rw [show (q:ℝ) = ((q:ℤ):ℝ) by push_cast; ring, Real.cos_int_mul_two_pi_add_pi,
      if_neg (by omega), if_pos (by omega)]
  · rw [show (q:ℝ) * (2 * Real.pi) + Real.pi * ((3:ℕ):ℝ) / 2 =
      (q:ℝ) * (2 * Real.pi) + Real.pi + Real.pi / 2 by push_cast; ring]
    rw [Real.cos_add, Real.cos_pi_div_two, Real.sin_pi_div_two,
      show (q:ℝ) * (2 * Real.pi) + Real.pi = ((q:ℤ):ℝ) * (2 * Real.pi) + Real.pi
        by push_cast; ring,
      Real.cos_int_mul_two_pi_add_pi]
    have hsin : Real.sin (((q:ℤ):ℝ) * (2 * Real.pi) + Real.pi) = 0 := by
      rw [show ((q:ℤ):ℝ) * (2 * Real.pi) + Real.pi = ((2 * q + 1 : ℕ) : ℝ) * Real.pi
        by push_cast; ring, Real.sin_nat_mul_pi]
    rw [hsin, if_neg (by omega), if_neg (by omega)]
    ring

lemma sin_sq_pi_half_nat (i : ℕ) : Real.sin (Real.pi * (i : ℝ) / 2) ^ 2 =
    if i % 2 = 0 then 0 else 1 := by
  have h := Real.sin_sq_add_cos_sq (Real.pi * (i : ℝ) / 2)
  rw [cos_pi_half_nat i] at h
  by_cases h4 : i % 4 = 0
  · rw [if_pos h4] at h
    rw [if_pos (by omega)]
    nlinarith
  · by_cases h4' : i % 4 = 2
    · rw [if_neg h4, if_pos h4'] at h
      rw [if_pos (by omega)]
      nlinarith
    · rw [if_neg h4, if_neg h4'] at h
      rw [if_neg (by omega)]
      nlinarith

lemma modRawDiagonal_ninety (i : ℕ) :
    modRawDiagonal (2 * Real.pi * (i : ℝ) / 360) dmNinety =
      Real.sin (Real.pi * (i : ℝ) / 2) ^ 2 := by
  show (0:ℝ) + 1 * |Real.sin ((90:ℝ) * (2 * Real.pi * (i : ℝ) / 360))| ^ ((2:ℝ)) = _
  rw [show (90:ℝ) * (2 * Real.pi * (i : ℝ) / 360) = Real.pi * (i : ℝ) / 2 by ring]
  rw [show ((2:ℝ)) = (((2:ℕ)):ℝ) by norm_num, Real.rpow_natCast, sq_abs]
  ring

lemma modRawCardinal_fortyfive (i : ℕ) :
    modRawCardinal (2 * Real.pi * (i : ℝ) / 360) cmFortyFive =
      Real.cos (Real.pi * (i : ℝ) / 4) ^ 2 := by
  show (0:ℝ) + 1 * |Real.cos ((45:ℝ) * (2 * Real.pi * (i : ℝ) / 360))| ^ ((2:ℝ)) = _
  rw [show (45:ℝ) * (2 * Real.pi * (i : ℝ) / 360) = Real.pi * (i : ℝ) / 4 by ring]
  rw [show ((2:ℝ)) = (((2:ℕ)):ℝ) by norm_num, Real.rpow_natCast, sq_abs]
  ring

lemma cos_sq_quarter_nat (i : ℕ) : Real.cos (Real.pi * (i : ℝ) / 4) ^ 2 =
    1 / 2 + Real.cos (Real.pi * (i : ℝ) / 2) / 2 := by
  rw [Real.cos_sq]
  congr 2
  ring

lemma prepSumDiagonal_ninety : prepSumDiagonal dmNinety 360 = 180 := by
  unfold prepSumDiagonal
  have hcongr : ∑ i in Finset.range 360,
      (if dmNinety.enabled = true then
        modRawDiagonal (2 * Real.pi * (i : ℝ) / ((360:ℕ):ℝ)) dmNinety else 0) =
      ∑ i in Finset.range 360, Real.sin (Real.pi * (i : ℝ) / 2) ^ 2 :=
    Finset.sum_congr rfl (fun i _ => by
      rw [if_pos (show dmNinety.enabled = true from rfl)]
      rw [show 2 * Real.pi * (i : ℝ) / ((360:ℕ):ℝ) = 2 * Real.pi * (i : ℝ) / 360
          by norm_num]
      exact modRawDiagonal_ninety i)
  rw [hcongr]
  have hper : ∀ i : ℕ, Real.sin (Real.pi * ((i + 2 : ℕ) : ℝ) / 2) ^ 2 =
      Real.sin (Real.pi * (i : ℝ) / 2) ^ 2 := by
    intro i
    rw [show Real.pi * ((i + 2 : ℕ) : ℝ) / 2 = Real.pi * (i : ℝ) / 2 + Real.pi
        by push_cast; ring, Real.sin_add_pi]
    ring
  rw [show (360:ℕ) = 180 * 2 from rfl,
    sum_range_periodic_mul (fun i => Real.sin (Real.pi * (i : ℝ) / 2) ^ 2) 2 180 hper]
  rw [Finset.sum_range_succ, Finset.sum_range_succ, Finset.sum_range_zero]
  rw [sin_sq_pi_half_nat 0, sin_sq_pi_half_nat 1]
  norm_num

lemma prepSumCardinal_fortyfive : prepSumCardinal cmFortyFive 360 = 180 := by
  unfold prepSumCardinal
  have hcongr : ∑ i in Finset.range 360,
      (if cmFortyFive.enabled = true then
        modRawCardinal (2 * Real.pi * (i : ℝ) / ((360:ℕ):ℝ)) cmFortyFive else 0) =
      ∑ i in Finset.range 360, Real.cos (Real.pi * (i : ℝ) / 4) ^ 2 :=
    Finset.sum_congr rfl (fun i _ => by
      rw [if_pos (show cmFortyFive.enabled = true from rfl)]
      rw [show 2 * Real.pi * (i : ℝ) / ((360:ℕ):ℝ) = 2 * Real.pi * (i : ℝ) / 360
          by norm_num]
      exact modRawCardinal_fortyfive i)
  rw [hcongr]
  have hper : ∀ i : ℕ, Real.cos (Real.pi * ((i + 4 : ℕ) : ℝ) / 4) ^ 2 =
      Real.cos (Real.pi * (i : ℝ) / 4) ^ 2 := by
    intro i
    rw [show Real.pi * ((i + 4 : ℕ) : ℝ) / 4 = Real.pi * (i : ℝ) / 4 + Real.pi
        by push_cast; ring, Real.cos_add_pi]
    ring
  rw [show (360:ℕ) = 90 * 4 from rfl,
    sum_range_periodic_mul (fun i => Real.cos (Real.pi * (i : ℝ) / 4) ^ 2) 4 90 hper]
  rw [Finset.sum_range_succ, Finset.sum_range_succ, Finset.sum_range_succ,
    Finset.sum_range_succ, Finset.sum_range_zero]
  rw [cos_sq_quarter_nat 0, cos_sq_quarter_nat 1, cos_sq_quarter_nat 2,
    cos_sq_quarter_nat 3]
  rw [cos_pi_half_nat 0, cos_pi_half_nat 1, cos_pi_half_nat 2, cos_pi_half_nat 3]
  norm_num

lemma avgDiagonal_ninety :
    (prepModParams dmNinety cmFortyFive 360).avgDiagonal = 1 / 2 := by
  show (if dmNinety.enabled = true then
    prepSumDiagonal dmNinety 360 / ((360:ℕ):ℝ) else 1) = 1 / 2
  rw [if_pos (show dmNinety.enabled = true from rfl), prepSumDiagonal_ninety]
  norm_num

lemma avgCardinal_fortyfive :
    (prepModParams dmNinety cmFortyFive 360).avgCardinal = 1 / 2 := by
  show (if cmFortyFive.enabled = true then
    prepSumCardinal cmFortyFive 360 / ((360:ℕ):ℝ) else 1) = 1 / 2
  rw [if_pos (show cmFortyFive.enabled = true from rfl), prepSumCardinal_fortyfive]
  norm_num

lemma combined_ninety_eval (i : ℕ) :
    combinedModulation (2 * Real.pi * (i : ℝ) / 360) 1
      (prepModParams dmNinety cmFortyFive 360) mbUnit =
    max 0.1 (2 * Real.sin (Real.pi * (i : ℝ) / 2) ^ 2 +
      2 * Real.cos (Real.pi * (i : ℝ) / 4) ^ 2 - 1) := by
  have havgD : (0:ℝ) < (prepModParams dmNinety cmFortyFive 360).avgDiagonal := by
    rw [avgDiagonal_ninety]; norm_num
  have havgC : (0:ℝ) < (prepModParams dmNinety cmFortyFive 360).avgCardinal := by
    rw [avgCardinal_fortyfive]; norm_num
  simp only [combinedModulation, preFloorMultiplier]
  rw [if_pos ⟨rfl, havgD⟩, if_pos ⟨rfl, havgC⟩]
  have hmf : poweredSmoothstep 1 mbUnit.modStart mbUnit.modEnd mbUnit.modPow = 1 := by
    show poweredSmoothstep 1 0 1 1 = 1
    exact poweredSmoothstep_eq_one 1 0 1 1 le_rfl
  have hD : modRawDiagonal (2 * Real.pi * (i : ℝ) / 360)
      (prepModParams dmNinety cmFortyFive 360).diagonal =
      Real.sin (Real.pi * (i : ℝ) / 2) ^ 2 := modRawDiagonal_ninety i
  have hC : modRawCardinal (2 * Real.pi * (i : ℝ) / 360)
      (prepModParams dmNinety cmFortyFive 360).cardinal =
      Real.cos (Real.pi * (i : ℝ) / 4) ^ 2 := modRawCardinal_fortyfive i
  rw [hmf, hD, hC, avgDiagonal_ninety, avgCardinal_fortyfive]
  congr 1
  field_simp
  ring

lemma combined_ninety_cases (i : ℕ) :
    combinedModulation (2 * Real.pi * (i : ℝ) / 360) 1
      (prepModParams dmNinety cmFortyFive 360) mbUnit =
    if i % 4 = 0 then 1 else if i % 4 = 2 then (0.1:ℝ) else 2 := by
  rw [combined_ninety_eval, sin_sq_pi_half_nat i, cos_sq_quarter_nat i,
    cos_pi_half_nat i]
  by_cases h4 : i % 4 = 0
  · have h2 : i % 2 = 0 := by omega
    simp only [h4, h2, if_true]
    rw [show (2:ℝ) * 0 + 2 * (1/2 + 1/2) - 1 = 1 by norm_num]
    exact max_eq_right (by norm_num)
  · by_cases h4' : i % 4 = 2
    · have h2 : i % 2 = 0 := by omega
      simp only [h2, if_true, if_neg h4, if_pos h4']
      rw [show (2:ℝ) * 0 + 2 * (1/2 + -1/2) - 1 = -1 by norm_num]
      exact max_eq_left (by norm_num)
    · have h2 : ¬ i % 2 = 0 := by omega
      simp only [if_neg h2, if_neg h4, if_neg h4']
      rw [show (2:ℝ) * 1 + 2 * (1/2 + 0/2) - 1 = 2 by norm_num]
      exact max_eq_right (by norm_num)

/-- Counterexample to C5 as stated: for the enabled diagonal pattern
`base = 0, amp = 1, freq = 90, exp = 2` and enabled cardinal pattern
`base = 0, amp = 1, freq = 45, exp = 2` (valid per the data model), the
mean of `combinedModulation(θ, 1, ...)` over the 360 sample angles is
exactly `51/40 = 1.275`, not `1.0`: at every angle with
`i ≡ 2 (mod 4)` the raw multiplier is `-1` and the `0.1` floor lifts it,
biasing the mean far beyond any small tolerance. -/
theorem modulation_mean_not_one :
    dmNinety.enabled = true ∧ cmFortyFive.enabled = true ∧
    combinedModulationMean (prepModParams dmNinety cmFortyFive 360) mbUnit = 51 / 40 ∧
    combinedModulationMean (prepModParams dmNinety cmFortyFive 360) mbUnit ≠ 1 := by
  have hsum : ∑ i in Finset.range 360,
      combinedModulation (2 * Real.pi * (i : ℝ) / 360) 1
        (prepModParams dmNinety cmFortyFive 360) mbUnit = 459 := by
    have hcongr : ∑ i in Finset.range 360,
        combinedModulation (2 * Real.pi * (i : ℝ) / 360) 1
          (prepModParams dmNinety cmFortyFive 360) mbUnit =
        ∑ i in Finset.range 360,
          (if i % 4 = 0 then (1:ℝ) else if i % 4 = 2 then 0.1 else 2) :=
      Finset.sum_congr rfl (fun i _ => combined_ninety_cases i)
    rw [hcongr]
    have hper : ∀ i : ℕ,
        (if (i + 4) % 4 = 0 then (1:ℝ) else if (i + 4) % 4 = 2 then 0.1 else 2) =
        (if i % 4 = 0 then (1:ℝ) else if i % 4 = 2 then 0.1 else 2) := by
      intro i
      rw [Nat.add_mod_right]
    rw [show (360:ℕ) = 90 * 4 from rfl,
      sum_range_periodic_mul
        (fun i => if i % 4 = 0 then (1:ℝ) else if i % 4 = 2 then 0.1 else 2) 4 90 hper]
    rw [Finset.sum_range_succ, Finset.sum_range_succ, Finset.sum_range_succ,
      Finset.sum_range_succ, Finset.sum_range_zero]
    norm_num
  refine ⟨rfl, rfl, ?_, ?_⟩
  · unfold combinedModulationMean
    rw [hsum]
    norm_num
  · unfold combinedModulationMean
    rw [hsum]
    norm_num

/-- C5 (amended): the normalization makes the 360-angle mean of the fully
engaged combined modulation equal to `1.0` exactly whenever the `0.1`
floor never engages (every pre-floor multiplier is at least `0.1`), for
enabled patterns with positive sampled averages and `modEnd ≤ 1`; when
the floor does engage the mean strictly exceeds `1`, as the
counterexample shows. -/
theorem modulation_mean_one_when_unfloored (dm cm : ModulationParams)
    (mb : ModulationBlendParams)
    (hde : dm.enabled = true) (hce : cm.enabled = true) (hend : mb.modEnd ≤ 1)
    (havgD : 0 < (prepModParams dm cm 360).avgDiagonal)
    (havgC : 0 < (prepModParams dm cm 360).avgCardinal)
    (hfloor : ∀ i ∈ Finset.range 360,
      (0.1:ℝ) ≤ preFloorMultiplier (2 * Real.pi * (i : ℝ) / 360) 1
        (prepModParams dm cm 360) mb) :
    combinedModulationMean (prepModParams dm cm 360) mb = 1 := by
  have hmf : poweredSmoothstep 1 mb.modStart mb.modEnd mb.modPow = 1 :=
    poweredSmoothstep_eq_one 1 mb.modStart mb.modEnd mb.modPow hend
  have havgDeq : (prepModParams dm cm 360).avgDiagonal =
      prepSumDiagonal dm 360 / ((360:ℕ):ℝ) := by
    show (if dm.enabled = true then prepSumDiagonal dm 360 / ((360:ℕ):ℝ) else 1) = _
    rw [if_pos hde]
  have havgCeq : (prepModParams dm cm 360).avgCardinal =
      prepSumCardinal cm 360 / ((360:ℕ):ℝ) := by
    show (if cm.enabled = true then prepSumCardinal cm 360 / ((360:ℕ):ℝ) else 1) = _
    rw [if_pos hce]
  have hpre : ∀ i : ℕ,
      preFloorMultiplier (2 * Real.pi * (i : ℝ) / 360) 1 (prepModParams dm cm 360) mb =
      modRawDiagonal (2 * Real.pi * (i : ℝ) / 360) dm /
          (prepModParams dm cm 360).avgDiagonal +
        modRawCardinal (2 * Real.pi * (i : ℝ) / 360) cm /
          (prepModParams dm cm 360).avgCardinal - 1 := by
    intro i
    simp only [preFloorMultiplier]
    rw [if_pos ⟨hde, havgD⟩, if_pos ⟨hce, havgC⟩, hmf,
      show (prepModParams dm cm 360).diagonal = dm from rfl,
      show (prepModParams dm cm 360).cardinal = cm from rfl]
    ring
  unfold combinedModulationMean
  have hterm : ∑ i in Finset.range 360,
      combinedModulation (2 * Real.pi * (i : ℝ) / 360) 1 (prepModParams dm cm 360) mb =
      ∑ i in Finset.range 360,
        (modRawDiagonal (2 * Real.pi * (i : ℝ) / 360) dm /
            (prepModParams dm cm 360).avgDiagonal +
          modRawCardinal (2 * Real.pi * (i : ℝ) / 360) cm /
            (prepModParams dm cm 360).avgCardinal - 1) :=
    Finset.sum_congr rfl (fun i hi => by
      rw [show combinedModulation (2 * Real.pi * (i : ℝ) / 360) 1
          (prepModParams dm cm 360) mb =
        max 0.1 (preFloorMultiplier (2 * Real.pi * (i : ℝ) / 360) 1
          (prepModParams dm cm 360) mb) from rfl]
      rw [max_eq_right (hfloor i hi), hpre i])
  rw [hterm]
  have hsumD : ∑ i in Finset.range 360,
      modRawDiagonal (2 * Real.pi * (i : ℝ) / 360) dm = prepSumDiagonal dm 360 := by
    unfold prepSumDiagonal
    refine Finset.sum_congr rfl (fun i _ => ?_)
    rw [if_pos hde]
    rw [show 2 * Real.pi * (i : ℝ) / ((360:ℕ):ℝ) = 2 * Real.pi * (i : ℝ) / 360
      by norm_num]
  have hsumC : ∑ i in Finset.range 360,
      modRawCardinal (2 * Real.pi * (i : ℝ) / 360) cm = prepSumCardinal cm 360 := by
    unfold prepSumCardinal
    refine Finset.sum_congr rfl (fun i _ => ?_)
    rw [if_pos hce]
    rw [show 2 * Real.pi * (i : ℝ) / ((360:ℕ):ℝ) = 2 * Real.pi * (i : ℝ) / 360
      by norm_num]
  rw [Finset.sum_sub_distrib, Finset.sum_add_distrib, ← Finset.sum_div, ← Finset.sum_div,
    hsumD, hsumC, havgDeq, havgCeq]
  have hSD : (0:ℝ) < prepSumDiagonal dm 360 := by
    have h := havgD
    rw [havgDeq] at h
    by_contra hneg
    push_neg at hneg
    have : prepSumDiagonal dm 360 / ((360:ℕ):ℝ) ≤ 0 :=
      div_nonpos_of_nonpos_of_nonneg hneg (by norm_num)
    linarith
  have hSC : (0:ℝ) < prepSumCardinal cm 360 := by
    have h := havgC
    rw [havgCeq] at h
    by_contra hneg
    push_neg at hneg
    have : prepSumCardinal cm 360 / ((360:ℕ):ℝ) ≤ 0 :=
      div_nonpos_of_nonpos_of_nonneg hneg (by norm_num)
    linarith
  have hdd : prepSumDiagonal dm 360 / (prepSumDiagonal dm 360 / ((360:ℕ):ℝ)) =
      ((360:ℕ):ℝ) := by
    rw [div_div_eq_mul_div, mul_comm, mul_div_assoc, div_self hSD.ne', mul_one]
  have hcc : prepSumCardinal cm 360 / (prepSumCardinal cm 360 / ((360:ℕ):ℝ)) =
      ((360:ℕ):ℝ) := by
    rw [div_div_eq_mul_div, mul_comm, mul_div_assoc, div_self hSC.ne', mul_one]
  rw [hdd, hcc, Finset.sum_const, Finset.card_range]
  norm_num

/-- Witness for the amended C5: the constant enabled patterns
(`base = 1`, `amp = 0`) have average `1`, pre-floor multiplier exactly
`1 ≥ 0.1` at every sample, and mean exactly `1`. -/
theorem modulation_mean_one_when_unfloored_witness :
    combinedModulationMean (prepModParams dmConst dmConst 360) mbUnit = 1 := by
  have hrawD : ∀ theta : ℝ, modRawDiagonal theta dmConst = 1 := by
    intro theta
    show (1:ℝ) + 0 * |Real.sin (1 * theta)| ^ ((1:ℝ)) = 1
    rw [zero_mul, add_zero]
  have hrawC : ∀ theta : ℝ, modRawCardinal theta dmConst = 1 := by
    intro theta
    show (1:ℝ) + 0 * |Real.cos (1 * theta)| ^ ((1:ℝ)) = 1
    rw [zero_mul, add_zero]
  have hsumD : prepSumDiagonal dmConst 360 = 360 := by
    unfold prepSumDiagonal
    have hcongr : ∑ i in Finset.range 360,
        (if dmConst.enabled = true then
          modRawDiagonal (2 * Real.pi * (i : ℝ) / ((360:ℕ):ℝ)) dmConst else 0) =
        ∑ _i in Finset.range 360, (1:ℝ) :=
      Finset.sum_congr rfl (fun i _ => by
        rw [if_pos (show dmConst.enabled = true from rfl), hrawD])
    rw [hcongr]
    simp
  have hsumC : prepSumCardinal dmConst 360 = 360 := by
    unfold prepSumCardinal
    have hcongr : ∑ i in Finset.range 360,
        (if dmConst.enabled = true then
          modRawCardinal (2 * Real.pi * (i : ℝ) / ((360:ℕ):ℝ)) dmConst else 0) =
        ∑ _i in Finset.range 360, (1:ℝ) :=
      Finset.sum_congr rfl (fun i _ => by
        rw [if_pos (show dmConst.enabled = true from rfl), hrawC])
    rw [hcongr]
    simp
  have havgD : (prepModParams dmConst dmConst 360).avgDiagonal = 1 := by
    show (if dmConst.enabled = true then
      prepSumDiagonal dmConst 360 / ((360:ℕ):ℝ) else 1) = 1
    rw [if_pos (show dmConst.enabled = true from rfl), hsumD]
    norm_num
  have havgC : (prepModParams dmConst dmConst 360).avgCardinal = 1 := by
    show (if dmConst.enabled = true then
      prepSumCardinal dmConst 360 / ((360:ℕ):ℝ) else 1) = 1
    rw [if_pos (show dmConst.enabled = true from rfl), hsumC]
    norm_num
  apply modulation_mean_one_when_unfloored dmConst dmConst mbUnit rfl rfl
    (show mbUnit.modEnd ≤ 1 from le_rfl)
    (by rw [havgD]; norm_num) (by rw [havgC]; norm_num)
  intro i _
  simp only [preFloorMultiplier]
  rw [if_pos ⟨rfl, by rw [havgD]; norm_num⟩, if_pos ⟨rfl, by rw [havgC]; norm_num⟩]
  rw [show (prepModParams dmConst dmConst 360).diagonal = dmConst from rfl,
    show (prepModParams dmConst dmConst 360).cardinal = dmConst from rfl]
  rw [hrawD, hrawC, havgD, havgC]
  have hmf : poweredSmoothstep 1 mbUnit.modStart mbUnit.modEnd mbUnit.modPow = 1 := by
    show poweredSmoothstep 1 0 1 1 = 1
    exact poweredSmoothstep_eq_one 1 0 1 1 le_rfl
  rw [hmf]
  norm_num

end ClaimC5
